import Mathlib

/-!
Shallow embedding of `@holaplex/solana-web3-tools` (the `SmartInstructionSender`
batch-submission engine, `src/smartInstructionSender.ts`, together with
`src/tools/connectionTools.ts` and `src/tools/getSlotAndBlockHash.ts`).

The embedding models the engine as a deterministic state machine driven by an
environment (`Env`) that answers, per call index, the three network round-trips
the code performs: `getSlotAndCurrentBlockHash`, `connection.getSlot`, and the
network behaviour underlying one `sendSignedTransaction` call.  All externally
observable actions (submission attempts, `onProgress`, `onReSign`, `onFailure`
callback invocations) are recorded in an event trace, in execution order.
-/

namespace SolanaWeb3Tools

/-- `InstructionSet` from `src/types.ts`: caller-supplied instructions plus
extra signers.  Instructions and signers are opaque to the engine, so they are
modelled as natural-number identifiers. -/
structure InstructionSet where
  instructions : List Nat
  signers : List Nat
deriving DecidableEq, Repr

/-- A `@solana/web3.js` `Transaction` as the engine builds it:
`new Transaction({ feePayer, recentBlockhash }).add(...instructions)`, then
`partialSign(...signers)` and (via the wallet) `signAllTransactions`.
`walletSigned` records whether the wallet has signed it. -/
structure Tx where
  feePayer : Nat
  recentBlockhash : Nat
  instructions : List Nat
  signers : List Nat
  walletSigned : Bool
deriving DecidableEq, Repr

/-- Building one transaction from an instruction set and a blockhash, as in
both the initial signing block of `send` and the rebuild loop of
`signAndRebuildTransactionsFromInstructionSets` (the `partialSign` call is
conditional on `signers.length` in the source, but its effect is the same
either way: the transaction carries exactly the set's signers). -/
def buildTx (pk bh : Nat) (s : InstructionSet) : Tx :=
  { feePayer := pk, recentBlockhash := bh, instructions := s.instructions,
    signers := s.signers, walletSigned := false }

/-- The wallet's `signAllTransactions` signs a transaction in place. -/
def signTx (t : Tx) : Tx := { t with walletSigned := true }

/-- The `type` discriminant of `SendAndConfirmError` in
`src/tools/connectionTools.ts`. -/
inductive ErrType
  | txError
  | timeout
  | miscError
deriving DecidableEq, Repr

/-- `SendAndConfirmError` from `src/tools/connectionTools.ts` (the `inner`
payload is opaque and omitted; `txid` is kept as an optional identifier). -/
structure SendAndConfirmError where
  etype : ErrType
  txid : Option Nat
deriving DecidableEq, Repr

/-- How the network behaves on one `sendAndConfirmRawTransactionEx` call:
either `sendRawTransaction` + `confirmTransaction` complete with no status
error, complete with a status error, or the whole thing throws (with or
without the timeout marker message `Transaction was not confirmed in`). -/
inductive RawSendOutcome
  | confirmedOk (txid : Nat)
  | confirmedErr (txid : Nat)
  | threw (timeoutMessage : Bool)
deriving DecidableEq, Repr

/-- `sendAndConfirmRawTransactionEx` from `src/tools/connectionTools.ts`:
a status error becomes a `tx-error`; a thrown exception becomes `timeout`
when its message includes `Transaction was not confirmed in`, otherwise
`misc-error`. -/
def sendAndConfirmRawTransactionEx : RawSendOutcome → Except SendAndConfirmError Nat
  | .confirmedOk t => .ok t
  | .confirmedErr t => .error { etype := .txError, txid := some t }
  | .threw true => .error { etype := .timeout, txid := none }
  | .threw false => .error { etype := .miscError, txid := none }

/-- Result of `sendSignedTransaction`: `{ txid, slot }` on success or
`{ err }`. -/
inductive SendResult
  | ok (txid : Nat) (slot : Nat)
  | err (e : SendAndConfirmError)
deriving DecidableEq, Repr

/-- Environment behaviour for one `sendSignedTransaction` call: the raw
send/confirm outcome, and what the follow-up
`connection.getConfirmedTransaction` lookup returns (its `slot`, or `none`
when there is no record). -/
structure SubmitBehavior where
  raw : RawSendOutcome
  lookupSlot : Option Nat
deriving DecidableEq, Repr

/-- `sendSignedTransaction` from `src/tools/connectionTools.ts`: serialize,
send and confirm; on success look up the confirmed transaction, defaulting
the reported slot to `0` (`let slot = 0`) when the lookup returns no record. -/
def sendSignedTransaction (b : SubmitBehavior) : SendResult :=
  match sendAndConfirmRawTransactionEx b.raw with
  | .error e => .err e
  | .ok txid =>
    match b.lookupSlot with
    | some s => .ok txid s
    | none => .ok txid 0

/-- The spec's Validity Window Tracker, a pure predicate:
`isExpired(confirmedSlot, baselineSlot) = confirmedSlot >= baselineSlot + 150`
(the source writes the comparison inline as `result.slot >= slot + 150` and
`slotResult >= slot + 150`). -/
def isExpired (confirmedSlot baselineSlot : Nat) : Bool :=
  decide (baselineSlot + 150 ≤ confirmedSlot)

/-- A JavaScript error value as it reaches the failure callback: either a
`new Error(message)` or a bailed `SendAndConfirmError` object. -/
inductive JsError
  | error (msg : String)
  | sendErr (e : SendAndConfirmError)
deriving DecidableEq, Repr

/-- Observable events of one `send` run, in execution order.
`submitAttempt i tx` records one `sendSignedTransaction` call for item `i`
with the transaction actually passed; `progress`, `reSign` and `failure`
record the callback invocations with their actual argument values.  The
`failure` arguments are recorded positionally exactly as the source passes
them: `onFailureCallback(error, i, successfulItems,
instructionSets[successfulItems - 1])`. -/
inductive Event
  | submitAttempt (index : Nat) (tx : Tx)
  | progress (index : Nat) (txid : Nat)
  | reSign (attempt : Nat) (index : Nat)
  | failure (error : JsError) (arg2 : Nat) (arg3 : Nat) (arg4 : Option InstructionSet)
deriving DecidableEq, Repr

/-- The engine's environment: per-call-index answers for the three network
round-trips (`getSlotAndCurrentBlockHash` as a `(slot, blockhash)` pair,
`connection.getSlot`, and one `sendSignedTransaction`'s network behaviour). -/
structure Env where
  slotNonce : Nat → Nat × Nat
  pollSlot : Nat → Nat
  submit : Nat → SubmitBehavior

/-- `SmartInstructionSenderConfiguration` (the `commitment` option is only
forwarded to the RPC layer and has no effect on control flow, so it is
omitted). -/
structure Config where
  maxSigningAttempts : Nat
  abortOnFailure : Bool
deriving DecidableEq, Repr

/-- The mutable state of a `send` run: the signed transaction array, the
validity baseline (`slot`, `blockhash`), the success counter, the number of
calls already made to each environment oracle, and the event trace so far. -/
structure SendState where
  signedTXs : List Tx
  slot : Nat
  blockhash : Nat
  successfulItems : Nat
  snC : Nat
  psC : Nat
  subC : Nat
  trace : List Event
deriving DecidableEq, Repr

/-- JavaScript array index assignment `l[j] = v`.  The source only ever
writes at `j ≤ l.length` (the rebuild loop writes consecutive indices
starting inside the array), so the out-of-bounds case is contiguous
append — which is exactly what JS does there. -/
def jsSet (l : List Tx) (j : Nat) (v : Tx) : List Tx :=
  if j < l.length then l.set j v else l ++ [v]

/-- Inner worker of the rebuild loop: writes `txs[j] := buildTx pk bh s`
for each remaining instruction set `s`, at consecutive positions. -/
def rebuildAux (pk bh : Nat) : List InstructionSet → Nat → List Tx → List Tx
  | [], _, txs => txs
  | s :: rest, j, txs => rebuildAux pk bh rest (j + 1) (jsSet txs j (buildTx pk bh s))

/-- The rebuild loop of `signAndRebuildTransactionsFromInstructionSets`:
`for (let j = index; j < instructionSets.length; j++) signedTXs[j] = ...`. -/
def rebuildFrom (sets : List InstructionSet) (pk bh : Nat) (j : Nat)
    (txs : List Tx) : List Tx :=
  rebuildAux pk bh (sets.drop j) j txs

/-- `signAndRebuildTransactionsFromInstructionSets`: invoke the re-sign
callback with `(attempt, index)`, rebuild every transaction from `index`
through `instructionSets.length - 1` against the given blockhash, have the
wallet sign the rebuilt tail (`signAllTransactions(signedTXs.slice(index))`
signs the shared transaction objects in place), and return the first rebuilt
transaction (`signedTXs.slice(index)[0]`, `none` modelling `undefined`).
Returns `(emitted events, updated array, returned transaction)`. -/
def signAndRebuildTransactionsFromInstructionSets
    (sets : List InstructionSet) (pk : Nat) (signedTXs : List Tx)
    (index : Nat) (bh : Nat) (attempt : Nat) :
    List Event × List Tx × Option Tx :=
  let rebuilt := rebuildFrom sets pk bh index signedTXs
  let txs := rebuilt.take index ++ (rebuilt.drop index).map signTx
  ([Event.reSign attempt index], txs, (txs.drop index).head?)

/-- Outcome of the per-item `async-retry` block: the wrapped promise either
resolves (`succeeded`) or rejects with the bailed error (`abandoned`). -/
inductive ItemOutcome
  | succeeded
  | abandoned (e : JsError)
deriving DecidableEq, Repr

/-- One item's `async-retry` loop from `send`, for item `i`.  `retryNumber`
counts the attempts already made; `fuel` bounds the remaining attempts
(`async-retry` allows `retries + 1 = maxSigningAttempts + 1` attempts in
total, and the loop is entered with that much fuel — the `fuel = 0` branch is
unreachable because timeouts bail once `retryNumber` reaches
`maxSigningAttempts`).  Each attempt: increment the counter, call
`sendSignedTransaction`; on success fire `onProgress`, bump the success
counter, and if the confirmed slot reaches `slot + 150` and later
transactions remain, refresh the baseline and rebuild them; on a timeout
either bail with `MAX_RESIGN_ATTEMPTS_REACHED` (counter at the ceiling) or
throw into `onRetry`, which polls the slot and, if it reaches `slot + 150`,
refreshes the baseline and rebuilds from `i` inclusive, replacing the
current transaction with the rebuild's return value; on any other error bail
with that error. -/
def runAttempts (cfg : Config) (sets : List InstructionSet) (pk : Nat)
    (env : Env) (i : Nat) :
    Nat → Nat → Tx → SendState → SendState × ItemOutcome
  | 0, _, _, st => (st, .abandoned (.error "RETRIES_EXHAUSTED"))
  | fuel + 1, retryNumber, tx, st =>
    let rn := retryNumber + 1
    let b := env.submit st.subC
    let st1 : SendState :=
      { st with subC := st.subC + 1, trace := st.trace ++ [.submitAttempt i tx] }
    match sendSignedTransaction b with
    | .err e =>
      if e.etype = .timeout ∧ cfg.maxSigningAttempts ≤ rn then
        (st1, .abandoned (.error "MAX_RESIGN_ATTEMPTS_REACHED"))
      else if e.etype = .timeout then
        let polled := env.pollSlot st1.psC
        let st2 : SendState := { st1 with psC := st1.psC + 1 }
        if st2.slot + 150 ≤ polled then
          let sn := env.slotNonce st2.snC
          let st3 : SendState :=
            { st2 with snC := st2.snC + 1, slot := sn.1, blockhash := sn.2 }
          let r := signAndRebuildTransactionsFromInstructionSets sets pk
            st3.signedTXs i sn.2 rn
          let st4 : SendState :=
            { st3 with signedTXs := r.2.1, trace := st3.trace ++ r.1 }
          runAttempts cfg sets pk env i fuel rn (r.2.2.getD tx) st4
        else
          runAttempts cfg sets pk env i fuel rn tx st2
      else
        (st1, .abandoned (.sendErr e))
    | .ok txid slot' =>
      let st2 : SendState :=
        { st1 with trace := st1.trace ++ [.progress i txid],
                   successfulItems := st1.successfulItems + 1 }
      if st2.slot + 150 ≤ slot' ∧ i + 1 < st2.signedTXs.length then
        let sn := env.slotNonce st2.snC
        let st3 : SendState :=
          { st2 with snC := st2.snC + 1, slot := sn.1, blockhash := sn.2 }
        let r := signAndRebuildTransactionsFromInstructionSets sets pk
          st3.signedTXs (i + 1) sn.2 0
        ({ st3 with signedTXs := r.2.1, trace := st3.trace ++ r.1 }, .succeeded)
      else
        (st2, .succeeded)

/-- `this.instructionSets[successfulItems - 1]`, the fourth argument the
source passes to the failure callback: JS index `-1` yields `undefined`
(`none`) when no item has succeeded yet. -/
def lastSuccessfulSet (sets : List InstructionSet) (successfulItems : Nat) :
    Option InstructionSet :=
  if successfulItems = 0 then none else sets.get? (successfulItems - 1)

/-- The main `for (let i = 0; i < signedTXs.length; i++)` loop of `send`.
The bound is re-read from the state each iteration because a rebuild can
lengthen the array.  On an abandoned item the failure callback fires with
the source's actual arguments `(error, i, successfulItems,
instructionSets[successfulItems - 1])`, and the loop `break`s when
`abortOnFailure` is set.  `fuel` bounds the number of iterations; `send`
supplies enough that it never runs out. -/
def sendLoop (cfg : Config) (sets : List InstructionSet) (pk : Nat)
    (env : Env) : Nat → Nat → SendState → SendState
  | 0, _, st => st
  | fuel + 1, i, st =>
    if h : i < st.signedTXs.length then
      let p := runAttempts cfg sets pk env i (cfg.maxSigningAttempts + 1) 0
        (st.signedTXs.get ⟨i, h⟩) st
      match p.2 with
      | .succeeded => sendLoop cfg sets pk env fuel (i + 1) p.1
      | .abandoned e =>
        let st2 : SendState :=
          { p.1 with trace := p.1.trace ++
              [.failure e i p.1.successfulItems
                (lastSuccessfulSet sets p.1.successfulItems)] }
        if cfg.abortOnFailure then st2
        else sendLoop cfg sets pk env fuel (i + 1) st2
    else st

/-- `SmartInstructionSender.send`: throw `WALLET_NOT_CONNECTED` when the
wallet has no public key; throw `NO_INSTRUCTION_SETS` when the instruction
set list is missing or empty; otherwise fetch the initial
`(slot, blockhash)` baseline, build one transaction per instruction set that
has at least one instruction (`.filter((i) => i.instructions.length)`), have
the wallet sign them all, and run the submission loop. -/
def send (publicKey : Option Nat) (sets : List InstructionSet)
    (cfg : Config) (env : Env) : Except String SendState :=
  match publicKey with
  | none => .error "WALLET_NOT_CONNECTED"
  | some pk =>
    if sets.length = 0 then .error "NO_INSTRUCTION_SETS"
    else
      let sn := env.slotNonce 0
      let kept := sets.filter (fun s => !s.instructions.isEmpty)
      let signedTXs := (kept.map (buildTx pk sn.2)).map signTx
      .ok (sendLoop cfg sets pk env (sets.length + 1) 0
        { signedTXs := signedTXs, slot := sn.1, blockhash := sn.2,
          successfulItems := 0, snC := 1, psC := 0, subC := 0, trace := [] })

/-- Indices of `progress` events of a trace, in order. -/
def progressIndices (tr : List Event) : List Nat :=
  tr.filterMap fun e =>
    match e with
    | .progress i _ => some i
    | _ => none

/-- Indices of submission attempts of a trace, in order. -/
def submitIndices (tr : List Event) : List Nat :=
  tr.filterMap fun e =>
    match e with
    | .submitAttempt i _ => some i
    | _ => none

/-- The transactions submitted for item `i`, in order. -/
def submitsOf (i : Nat) (tr : List Event) : List Tx :=
  tr.filterMap fun e =>
    match e with
    | .submitAttempt j t => if j = i then some t else none
    | _ => none

/-- The failure events of a trace, in order. -/
def failureEvents (tr : List Event) : List Event :=
  tr.filter fun e =>
    match e with
    | .failure _ _ _ _ => true
    | _ => false

/-- The `i` (failed-index) arguments of the failure events of a trace. -/
def failureIndices (tr : List Event) : List Nat :=
  tr.filterMap fun e =>
    match e with
    | .failure _ i _ _ => some i
    | _ => none

/-- Indices that reached a terminal per-item outcome (`progress` or
`failure`), in trace order. -/
def terminalIndices (tr : List Event) : List Nat :=
  tr.filterMap fun e =>
    match e with
    | .progress i _ => some i
    | .failure _ i _ _ => some i
    | _ => none

/-- Whether a trace contains a `reSign` event. -/
def hasReSign (tr : List Event) : Bool :=
  tr.any fun e =>
    match e with
    | .reSign _ _ => true
    | _ => false

/-! ### List helpers -/

theorem take_succ_set (v : Tx) :
    ∀ (j : Nat) (txs : List Tx), j < txs.length →
      (txs.set j v).take (j + 1) = txs.take j ++ [v] := by
  intro j
  induction j with
  | zero =>
    intro txs h
    cases txs with
    | nil => simp at h
    | cons x xs => simp
  | succ j ih =>
    intro txs h
    cases txs with
    | nil => simp at h
    | cons x xs =>
      simp only [List.set_cons_succ, List.take_succ_cons]
      rw [ih xs (by simpa using h)]
      simp

theorem chain'_le_of_all_eq (c : Nat) :
    ∀ (l : List Nat), (∀ x ∈ l, x = c) → l.Chain' (· ≤ ·) := by
  intro l
  induction l with
  | nil => intro _; simp
  | cons a l ih =>
    intro h
    match l with
    | [] => simp
    | b :: l' =>
      refine List.Chain'.cons ?_ (ih ?_)
      · rw [h a (by simp), h b (by simp)]
      · intro x hx; exact h x (by simp [hx])

/-! ### Characterization of the rebuild step -/

/-- The rebuild worker on a run of writes that stays inside the array:
replace the written segment, keep everything around it. -/
theorem rebuildAux_eq (pk bh : Nat) :
    ∀ (l : List InstructionSet) (j : Nat) (txs : List Tx),
      j + l.length ≤ txs.length →
      rebuildAux pk bh l j txs
        = txs.take j ++ l.map (buildTx pk bh) ++ txs.drop (j + l.length) := by
  intro l
  induction l with
  | nil =>
    intro j txs _
    simp [rebuildAux, List.take_append_drop]
  | cons s rest ih =>
    intro j txs hle
    simp only [List.length_cons] at hle
    have hj : j < txs.length := by omega
    simp only [rebuildAux]
    rw [jsSet, if_pos hj]
    rw [ih (j + 1) (txs.set j (buildTx pk bh s)) (by simp only [List.length_set]; omega)]
    rw [take_succ_set _ j txs hj]
    rw [List.drop_set_of_lt _ _ (by omega : j < j + 1 + rest.length)]
    have harith : j + 1 + rest.length = j + (rest.length + 1) := by omega
    rw [harith]
    simp [List.append_assoc]

/-- When the transaction array is aligned with the instruction sets, the
rebuild loop replaces every entry from `j` on with a freshly built
transaction and leaves the prefix alone. -/
theorem rebuildFrom_eq (sets : List InstructionSet) (pk bh : Nat)
    (j : Nat) (txs : List Tx) (hlen : txs.length = sets.length) :
    rebuildFrom sets pk bh j txs
      = txs.take j ++ (sets.drop j).map (buildTx pk bh) := by
  by_cases hj : j ≤ sets.length
  · rw [rebuildFrom, rebuildAux_eq pk bh (sets.drop j) j txs
      (by simp only [List.length_drop]; omega)]
    rw [List.length_drop]
    rw [show j + (sets.length - j) = txs.length by omega]
    simp
  · rw [rebuildFrom, List.drop_eq_nil_of_le (by omega)]
    simp only [rebuildAux, List.map_nil, List.append_nil]
    rw [List.take_of_length_le (by omega)]

/-- Full characterization of `signAndRebuildTransactionsFromInstructionSets`
on an aligned array: the re-sign event carries `(attempt, index)`, entries
below `index` are untouched, entries from `index` on are rebuilt from their
own instruction set against the new blockhash and wallet-signed, and the
rebuilt entry at `index` is returned. -/
theorem signAndRebuild_eq (sets : List InstructionSet) (pk : Nat)
    (signedTXs : List Tx) (index bh attempt : Nat)
    (hlen : signedTXs.length = sets.length) (hi : index < sets.length) :
    signAndRebuildTransactionsFromInstructionSets sets pk signedTXs index bh attempt
      = ([Event.reSign attempt index],
         signedTXs.take index ++ (sets.drop index).map (fun s => signTx (buildTx pk bh s)),
         some (signTx (buildTx pk bh (sets.get ⟨index, hi⟩)))) := by
  have hA : (signedTXs.take index).length = index := by
    rw [List.length_take]; omega
  have hR : rebuildFrom sets pk bh index signedTXs
      = signedTXs.take index ++ (sets.drop index).map (buildTx pk bh) :=
    rebuildFrom_eq sets pk bh index signedTXs hlen
  have htake : (signedTXs.take index ++ (sets.drop index).map (buildTx pk bh)).take index
      = signedTXs.take index := by
    rw [List.take_append_eq_append_take, hA, Nat.sub_self, List.take_zero,
      List.append_nil, List.take_take, Nat.min_self]
  have hdrop : (signedTXs.take index ++ (sets.drop index).map (buildTx pk bh)).drop index
      = (sets.drop index).map (buildTx pk bh) := by
    rw [List.drop_append_eq_append_drop, hA, Nat.sub_self, List.drop_zero,
      List.drop_eq_nil_of_le (by omega), List.nil_append]
  have hA2 : ((signedTXs.take index ++
      ((sets.drop index).map (buildTx pk bh)).map signTx).drop index)
      = ((sets.drop index).map (buildTx pk bh)).map signTx := by
    rw [List.drop_append_eq_append_drop, hA, Nat.sub_self, List.drop_zero,
      List.drop_eq_nil_of_le (by omega), List.nil_append]
  simp only [signAndRebuildTransactionsFromInstructionSets, hR, htake, hdrop, hA2]
  rw [List.map_map, List.drop_eq_getElem_cons hi]
  simp [Function.comp]
  exact ⟨rfl, sets[index], List.getElem?_eq_getElem hi, rfl⟩

/-- Same-length fact for the rebuilt array. -/
theorem signAndRebuild_length (sets : List InstructionSet) (pk : Nat)
    (signedTXs : List Tx) (index bh attempt : Nat)
    (hlen : signedTXs.length = sets.length) (hi : index < sets.length) :
    (signAndRebuildTransactionsFromInstructionSets sets pk signedTXs index bh attempt).2.1.length
      = sets.length := by
  rw [signAndRebuild_eq sets pk signedTXs index bh attempt hlen hi]
  simp only [List.length_append, List.length_take, List.length_map, List.length_drop]
  omega

/-! ### One-step characterizations of the retry loop -/

theorem runAttempts_zero (cfg : Config) (sets : List InstructionSet) (pk : Nat)
    (env : Env) (i rn : Nat) (tx : Tx) (st : SendState) :
    runAttempts cfg sets pk env i 0 rn tx st
      = (st, .abandoned (.error "RETRIES_EXHAUSTED")) := rfl

/-- A successful submission: fire `progress`, bump the success counter, and
rebuild the tail exactly when the confirmed slot reaches the baseline window
and later transactions remain. -/
theorem runAttempts_ok (cfg : Config) (sets : List InstructionSet) (pk : Nat)
    (env : Env) (i fuel rn : Nat) (tx : Tx) (st : SendState) (txid slot' : Nat)
    (hok : sendSignedTransaction (env.submit st.subC) = .ok txid slot') :
    runAttempts cfg sets pk env i (fuel + 1) rn tx st
      = (if st.slot + 150 ≤ slot' ∧ i + 1 < st.signedTXs.length then
          ({ st with
              subC := st.subC + 1
              successfulItems := st.successfulItems + 1
              snC := st.snC + 1
              slot := (env.slotNonce st.snC).1
              blockhash := (env.slotNonce st.snC).2
              signedTXs := (signAndRebuildTransactionsFromInstructionSets sets pk
                st.signedTXs (i + 1) (env.slotNonce st.snC).2 0).2.1
              trace := st.trace ++ [.submitAttempt i tx, .progress i txid,
                .reSign 0 (i + 1)] }, .succeeded)
        else
          ({ st with
              subC := st.subC + 1
              successfulItems := st.successfulItems + 1
              trace := st.trace ++ [.submitAttempt i tx, .progress i txid] },
            .succeeded)) := by
  simp only [runAttempts, hok, signAndRebuildTransactionsFromInstructionSets]
  split
  · simp [List.append_assoc]
  · simp [List.append_assoc]

/-- A timeout with the attempt counter at the ceiling: bail with
`MAX_RESIGN_ATTEMPTS_REACHED` after the one submission just made. -/
theorem runAttempts_err_max (cfg : Config) (sets : List InstructionSet) (pk : Nat)
    (env : Env) (i fuel rn : Nat) (tx : Tx) (st : SendState)
    (e : SendAndConfirmError)
    (herr : sendSignedTransaction (env.submit st.subC) = .err e)
    (hto : e.etype = .timeout) (hge : cfg.maxSigningAttempts ≤ rn + 1) :
    runAttempts cfg sets pk env i (fuel + 1) rn tx st
      = ({ st with subC := st.subC + 1, trace := st.trace ++ [.submitAttempt i tx] },
         .abandoned (.error "MAX_RESIGN_ATTEMPTS_REACHED")) := by
  simp only [runAttempts, herr]
  rw [if_pos ⟨hto, hge⟩]

/-- A non-retryable error (`tx-error` or `misc-error`): bail immediately with
that error after the one submission just made. -/
theorem runAttempts_err_bail (cfg : Config) (sets : List InstructionSet) (pk : Nat)
    (env : Env) (i fuel rn : Nat) (tx : Tx) (st : SendState)
    (e : SendAndConfirmError)
    (herr : sendSignedTransaction (env.submit st.subC) = .err e)
    (hto : ¬e.etype = .timeout) :
    runAttempts cfg sets pk env i (fuel + 1) rn tx st
      = ({ st with subC := st.subC + 1, trace := st.trace ++ [.submitAttempt i tx] },
         .abandoned (.sendErr e)) := by
  simp only [runAttempts, herr]
  rw [if_neg (by intro h; exact hto h.1), if_neg hto]

/-- A retryable timeout whose follow-up slot poll stays below the window:
retry with the same transaction and baseline. -/
theorem runAttempts_timeout_poll_low (cfg : Config) (sets : List InstructionSet)
    (pk : Nat) (env : Env) (i fuel rn : Nat) (tx : Tx) (st : SendState)
    (e : SendAndConfirmError)
    (herr : sendSignedTransaction (env.submit st.subC) = .err e)
    (hto : e.etype = .timeout) (hlt : rn + 1 < cfg.maxSigningAttempts)
    (hpoll : env.pollSlot st.psC < st.slot + 150) :
    runAttempts cfg sets pk env i (fuel + 1) rn tx st
      = runAttempts cfg sets pk env i fuel (rn + 1) tx
          { st with
            subC := st.subC + 1
            psC := st.psC + 1
            trace := st.trace ++ [.submitAttempt i tx] } := by
  simp only [runAttempts, herr]
  rw [if_neg (by intro h; omega), if_pos hto, if_neg (by
    show ¬st.slot + 150 ≤ env.pollSlot st.psC
    omega)]

/-- A retryable timeout whose follow-up slot poll reaches the window:
refresh the baseline, rebuild from the current index inclusive, fire
`reSign`, and retry with the rebuilt transaction. -/
theorem runAttempts_timeout_poll_high (cfg : Config) (sets : List InstructionSet)
    (pk : Nat) (env : Env) (i fuel rn : Nat) (tx : Tx) (st : SendState)
    (e : SendAndConfirmError)
    (herr : sendSignedTransaction (env.submit st.subC) = .err e)
    (hto : e.etype = .timeout) (hlt : rn + 1 < cfg.maxSigningAttempts)
    (hpoll : st.slot + 150 ≤ env.pollSlot st.psC) :
    runAttempts cfg sets pk env i (fuel + 1) rn tx st
      = runAttempts cfg sets pk env i fuel (rn + 1)
          ((signAndRebuildTransactionsFromInstructionSets sets pk st.signedTXs i
              (env.slotNonce st.snC).2 (rn + 1)).2.2.getD tx)
          { st with
            subC := st.subC + 1
            psC := st.psC + 1
            snC := st.snC + 1
            slot := (env.slotNonce st.snC).1
            blockhash := (env.slotNonce st.snC).2
            signedTXs := (signAndRebuildTransactionsFromInstructionSets sets pk
              st.signedTXs i (env.slotNonce st.snC).2 (rn + 1)).2.1
            trace := st.trace ++ [.submitAttempt i tx, .reSign (rn + 1) i] } := by
  simp only [runAttempts, herr, signAndRebuildTransactionsFromInstructionSets]
  rw [if_neg (by intro h; omega), if_pos hto, if_pos hpoll]
  simp [List.append_assoc]

/-- The retry loop only ever appends to the trace. -/
theorem runAttempts_trace_extends (cfg : Config) (sets : List InstructionSet)
    (pk : Nat) (env : Env) (i : Nat) :
    ∀ (fuel rn : Nat) (tx : Tx) (st : SendState),
      ∃ evs, (runAttempts cfg sets pk env i fuel rn tx st).1.trace
        = st.trace ++ evs := by
  intro fuel
  induction fuel with
  | zero =>
    intro rn tx st
    exact ⟨[], by simp [runAttempts_zero]⟩
  | succ fuel ih =>
    intro rn tx st
    cases hs : sendSignedTransaction (env.submit st.subC) with
    | ok txid slot' =>
      rw [runAttempts_ok cfg sets pk env i fuel rn tx st txid slot' hs]
      split
      · exact ⟨_, rfl⟩
      · exact ⟨_, rfl⟩
    | err e =>
      by_cases hto : e.etype = .timeout
      · by_cases hge : cfg.maxSigningAttempts ≤ rn + 1
        · rw [runAttempts_err_max cfg sets pk env i fuel rn tx st e hs hto hge]
          exact ⟨_, rfl⟩
        · by_cases hp : st.slot + 150 ≤ env.pollSlot st.psC
          · rw [runAttempts_timeout_poll_high cfg sets pk env i fuel rn tx st e hs
              hto (by omega) hp]
            obtain ⟨evs, he⟩ := ih (rn + 1) _ _
            refine ⟨Event.submitAttempt i tx :: Event.reSign (rn + 1) i :: evs, ?_⟩
            rw [he]; simp
          · rw [runAttempts_timeout_poll_low cfg sets pk env i fuel rn tx st e hs
              hto (by omega) (by omega)]
            obtain ⟨evs, he⟩ := ih (rn + 1) _ _
            refine ⟨Event.submitAttempt i tx :: evs, ?_⟩
            rw [he]; simp
      · rw [runAttempts_err_bail cfg sets pk env i fuel rn tx st e hs hto]
        exact ⟨_, rfl⟩

/-- Whatever happens, the first event the retry loop appends is the
submission of the transaction it was entered with. -/
theorem runAttempts_trace_starts (cfg : Config) (sets : List InstructionSet)
    (pk : Nat) (env : Env) (i fuel rn : Nat) (tx : Tx) (st : SendState) :
    ∃ evs, (runAttempts cfg sets pk env i (fuel + 1) rn tx st).1.trace
      = st.trace ++ Event.submitAttempt i tx :: evs := by
  cases hs : sendSignedTransaction (env.submit st.subC) with
  | ok txid slot' =>
    rw [runAttempts_ok cfg sets pk env i fuel rn tx st txid slot' hs]
    split
    · exact ⟨_, rfl⟩
    · exact ⟨_, rfl⟩
  | err e =>
    by_cases hto : e.etype = .timeout
    · by_cases hge : cfg.maxSigningAttempts ≤ rn + 1
      · rw [runAttempts_err_max cfg sets pk env i fuel rn tx st e hs hto hge]
        exact ⟨_, rfl⟩
      · by_cases hp : st.slot + 150 ≤ env.pollSlot st.psC
        · rw [runAttempts_timeout_poll_high cfg sets pk env i fuel rn tx st e hs
            hto (by omega) hp]
          obtain ⟨evs, he⟩ :=
            runAttempts_trace_extends cfg sets pk env i fuel (rn + 1) _ _
          refine ⟨Event.reSign (rn + 1) i :: evs, ?_⟩
          rw [he]; simp
        · rw [runAttempts_timeout_poll_low cfg sets pk env i fuel rn tx st e hs
            hto (by omega) (by omega)]
          obtain ⟨evs, he⟩ :=
            runAttempts_trace_extends cfg sets pk env i fuel (rn + 1) _ _
          refine ⟨evs, ?_⟩
          rw [he]; simp
    · rw [runAttempts_err_bail cfg sets pk env i fuel rn tx st e hs hto]
      exact ⟨_, rfl⟩

/-! ### One-step characterizations of the main loop -/

theorem sendLoop_zero (cfg : Config) (sets : List InstructionSet) (pk : Nat)
    (env : Env) (i : Nat) (st : SendState) :
    sendLoop cfg sets pk env 0 i st = st := rfl

theorem sendLoop_done (cfg : Config) (sets : List InstructionSet) (pk : Nat)
    (env : Env) (fuel i : Nat) (st : SendState)
    (h : ¬i < st.signedTXs.length) :
    sendLoop cfg sets pk env (fuel + 1) i st = st := by
  simp only [sendLoop]
  rw [dif_neg h]

theorem sendLoop_step_succeeded (cfg : Config) (sets : List InstructionSet)
    (pk : Nat) (env : Env) (fuel i : Nat) (st st' : SendState)
    (h : i < st.signedTXs.length)
    (hrun : runAttempts cfg sets pk env i (cfg.maxSigningAttempts + 1) 0
      (st.signedTXs.get ⟨i, h⟩) st = (st', .succeeded)) :
    sendLoop cfg sets pk env (fuel + 1) i st
      = sendLoop cfg sets pk env fuel (i + 1) st' := by
  simp only [sendLoop]
  rw [dif_pos h]
  simp only [hrun]

theorem sendLoop_step_abandoned (cfg : Config) (sets : List InstructionSet)
    (pk : Nat) (env : Env) (fuel i : Nat) (st st' : SendState) (e : JsError)
    (h : i < st.signedTXs.length)
    (hrun : runAttempts cfg sets pk env i (cfg.maxSigningAttempts + 1) 0
      (st.signedTXs.get ⟨i, h⟩) st = (st', .abandoned e)) :
    sendLoop cfg sets pk env (fuel + 1) i st
      = (if cfg.abortOnFailure then
          { st' with trace := st'.trace ++ [.failure e i st'.successfulItems
              (lastSuccessfulSet sets st'.successfulItems)] }
        else sendLoop cfg sets pk env fuel (i + 1)
          { st' with trace := st'.trace ++ [.failure e i st'.successfulItems
              (lastSuccessfulSet sets st'.successfulItems)] }) := by
  simp only [sendLoop]
  rw [dif_pos h]
  simp only [hrun]

/-- Unfolding `send` when both preconditions pass. -/
theorem send_ok (pk : Nat) (sets : List InstructionSet) (cfg : Config)
    (env : Env) (hne : sets ≠ []) :
    send (some pk) sets cfg env
      = .ok (sendLoop cfg sets pk env (sets.length + 1) 0
          { signedTXs := ((sets.filter (fun s => !s.instructions.isEmpty)).map
              (buildTx pk (env.slotNonce 0).2)).map signTx
            slot := (env.slotNonce 0).1
            blockhash := (env.slotNonce 0).2
            successfulItems := 0
            snC := 1
            psC := 0
            subC := 0
            trace := [] }) := by
  simp only [send]
  rw [if_neg (by simpa using hne)]

/-! ### Claim theorems, part 1 -/

/-- C1 (code bug): the source invokes the failure callback as
`onFailureCallback(error, i, successfulItems, instructionSets[successfulItems - 1])`,
while the `FailureCb` type declared in the very same file documents the order
`(error, successfulItems, currentIndex, failedInstructionSet)`.  First run:
the claim's own scenario (`maxSigningAttempts = 1`, single item that always
times out) — the callback receives `undefined` (`none`) as its fourth
argument instead of Operation Set item 0.  Second run (three items,
`abortOnFailure = false`, items 0 and 2 rejected, item 1 confirmed): the
failure for item 2 receives `(error, 2, 1, sets[0])` where the declared
order would be `(error, 1, 2, sets[2])`. -/
theorem c1_failure_callback_arguments :
    ((send (some 9) [{ instructions := [1], signers := [] }]
        { maxSigningAttempts := 1, abortOnFailure := true }
        ⟨fun _ => (0, 7), fun _ => 0, fun _ => ⟨.threw true, none⟩⟩).toOption.map
      (fun st => failureEvents st.trace))
      = some [.failure (.error "MAX_RESIGN_ATTEMPTS_REACHED") 0 0 none] ∧
    ((send (some 9)
        [{ instructions := [10], signers := [] },
         { instructions := [11], signers := [] },
         { instructions := [12], signers := [] }]
        { maxSigningAttempts := 2, abortOnFailure := false }
        ⟨fun _ => (0, 7), fun _ => 0,
         fun c => if c = 1 then ⟨.confirmedOk 42, some 3⟩
                  else ⟨.threw false, none⟩⟩).toOption.map
      (fun st => failureEvents st.trace))
      = some [.failure (.sendErr ⟨.miscError, none⟩) 0 0 none,
              .failure (.sendErr ⟨.miscError, none⟩) 2 1
                (some { instructions := [10], signers := [] })] := by
  constructor
  · rfl
  · rfl

/-- C9: the Batch Rebuilder contract.  On an envelope array aligned with
the instruction sets and a resume index inside the batch,
`signAndRebuildTransactionsFromInstructionSets` reports exactly one re-sign
event with arguments `(attemptNumber, fromIndex)`, leaves every envelope
below `fromIndex` unchanged, replaces every envelope from `fromIndex` on
with a wallet-signed envelope built from its own Operation Set and the
fresh nonce, and returns the first rebuilt envelope. -/
theorem c9_rebuilder_contract (sets : List InstructionSet) (pk : Nat)
    (envelopes : List Tx) (fromIndex freshNonce attemptNumber : Nat)
    (hlen : envelopes.length = sets.length)
    (hi : fromIndex < sets.length) :
    signAndRebuildTransactionsFromInstructionSets sets pk envelopes fromIndex
        freshNonce attemptNumber
      = ([Event.reSign attemptNumber fromIndex],
         envelopes.take fromIndex ++
           (sets.drop fromIndex).map (fun s => signTx (buildTx pk freshNonce s)),
         some (signTx (buildTx pk freshNonce (sets.get ⟨fromIndex, hi⟩)))) :=
  signAndRebuild_eq sets pk envelopes fromIndex freshNonce attemptNumber hlen hi

/-- Witness for C9 at a concrete input. -/
theorem c9_rebuilder_contract_witness :
    signAndRebuildTransactionsFromInstructionSets
        [{ instructions := [1], signers := [2] }, { instructions := [3], signers := [] }]
        9 [⟨9, 7, [1], [2], true⟩, ⟨9, 7, [3], [], true⟩] 1 8 4
      = ([Event.reSign 4 1], [⟨9, 7, [1], [2], true⟩, ⟨9, 8, [3], [], true⟩],
         some ⟨9, 8, [3], [], true⟩) := by
  rw [c9_rebuilder_contract
    [{ instructions := [1], signers := [2] }, { instructions := [3], signers := [] }]
    9 [⟨9, 7, [1], [2], true⟩, ⟨9, 7, [3], [], true⟩] 1 8 4 (by decide) (by decide)]
  decide

/-- C10: when a submission confirms but the follow-up
`getConfirmedTransaction` lookup returns no record, `sendSignedTransaction`
still reports success with slot `0`; `isExpired 0 baseline` is false for
every baseline, so the post-confirmation expiry check in `send` cannot
fire — the step appends exactly a submission and a progress event, with no
`reSign`, and the item succeeds. -/
theorem c10_missing_confirmation_defaults_slot_zero
    (b : SubmitBehavior) (t : Nat)
    (hb : b.lookupSlot = none)
    (hok : sendAndConfirmRawTransactionEx b.raw = .ok t)
    (cfg : Config) (sets : List InstructionSet) (pk : Nat) (env : Env)
    (i fuel rn : Nat) (tx : Tx) (st : SendState)
    (hsub : env.submit st.subC = b) :
    sendSignedTransaction b = .ok t 0 ∧
    (∀ baseline : Nat, isExpired 0 baseline = false) ∧
    (runAttempts cfg sets pk env i (fuel + 1) rn tx st).1.trace
      = st.trace ++ [.submitAttempt i tx, .progress i t] ∧
    (runAttempts cfg sets pk env i (fuel + 1) rn tx st).2 = .succeeded := by
  have hsend : sendSignedTransaction b = .ok t 0 := by
    simp only [sendSignedTransaction, hok, hb]
  have hrun := runAttempts_ok cfg sets pk env i fuel rn tx st t 0
    (by rw [hsub]; exact hsend)
  rw [if_neg (by intro hcon; omega)] at hrun
  refine ⟨hsend, ?_, ?_, ?_⟩
  · intro baseline
    simp [isExpired]
  · rw [hrun]
  · rw [hrun]

/-- Witness for C10 at a concrete input. -/
theorem c10_missing_confirmation_defaults_slot_zero_witness :
    sendSignedTransaction ⟨RawSendOutcome.confirmedOk 5, none⟩ = .ok 5 0 ∧
    isExpired 0 3 = false ∧
    (runAttempts ⟨3, true⟩ [] 9
        ⟨fun _ => (0, 7), fun _ => 0, fun _ => ⟨.confirmedOk 5, none⟩⟩ 0 1 0
        ⟨9, 7, [1], [], true⟩ ⟨[⟨9, 7, [1], [], true⟩], 0, 7, 0, 1, 0, 0, []⟩).1.trace
      = [.submitAttempt 0 ⟨9, 7, [1], [], true⟩, .progress 0 5] := by
  have h := c10_missing_confirmation_defaults_slot_zero
    ⟨RawSendOutcome.confirmedOk 5, none⟩ 5 rfl rfl ⟨3, true⟩ [] 9
    ⟨fun _ => (0, 7), fun _ => 0, fun _ => ⟨.confirmedOk 5, none⟩⟩ 0 0 0
    ⟨9, 7, [1], [], true⟩ ⟨[⟨9, 7, [1], [], true⟩], 0, 7, 0, 1, 0, 0, []⟩ rfl
  exact ⟨h.1, h.2.1 3, by rw [h.2.2.1]; rfl⟩

/-- C7: `send` fails synchronously, independently of any network behaviour,
with `WALLET_NOT_CONNECTED` when the wallet has no public key and with
`NO_INSTRUCTION_SETS` when the batch is empty (the result does not depend
on the environment, so no network call can have been made); and whenever
both preconditions pass, `send` resolves normally — per-item failures are
reported only through the trace's failure events, never as a thrown
error. -/
theorem c7_preconditions_throw_and_no_operational_throw
    (sets : List InstructionSet) (cfg : Config) (env env' : Env) (pk : Nat) :
    (send none sets cfg env = .error "WALLET_NOT_CONNECTED" ∧
      send none sets cfg env = send none sets cfg env') ∧
    (send (some pk) [] cfg env = .error "NO_INSTRUCTION_SETS" ∧
      send (some pk) [] cfg env = send (some pk) [] cfg env') ∧
    (sets ≠ [] → ∃ st, send (some pk) sets cfg env = .ok st) := by
  refine ⟨⟨rfl, rfl⟩, ⟨rfl, rfl⟩, ?_⟩
  intro hne
  exact ⟨_, send_ok pk sets cfg env hne⟩

/-- Witness for C7 at a concrete input. -/
theorem c7_preconditions_witness :
    send none [] ⟨3, true⟩ ⟨fun _ => (0, 7), fun _ => 0,
        fun _ => ⟨.confirmedOk 5, some 0⟩⟩ = .error "WALLET_NOT_CONNECTED" ∧
    send (some 9) [] ⟨3, true⟩ ⟨fun _ => (0, 7), fun _ => 0,
        fun _ => ⟨.confirmedOk 5, some 0⟩⟩ = .error "NO_INSTRUCTION_SETS" ∧
    ∃ st, send (some 9) [{ instructions := [1], signers := [] }] ⟨3, true⟩
        ⟨fun _ => (0, 7), fun _ => 0, fun _ => ⟨.confirmedOk 5, some 0⟩⟩ = .ok st := by
  have h := c7_preconditions_throw_and_no_operational_throw
    [{ instructions := [1], signers := [] }] ⟨3, true⟩
    ⟨fun _ => (0, 7), fun _ => 0, fun _ => ⟨.confirmedOk 5, some 0⟩⟩
    ⟨fun _ => (0, 7), fun _ => 0, fun _ => ⟨.confirmedOk 5, some 0⟩⟩ 9
  exact ⟨h.1.1, h.2.1.1, h.2.2 (by decide)⟩

/-- C6: when the submission of the current envelope fails non-retryably
(a ledger-rejected transaction, `tx-error`, or an unclassified
`misc-error`), the engine abandons the item at once: exactly one
submission attempt happens for that index, the failure callback receives
that very rejection error, and the loop then either stops
(`abortOnFailure`) or moves to the next item.  This holds for any item,
whatever happened before it. -/
theorem c6_nonretryable_abandons_immediately
    (cfg : Config) (sets : List InstructionSet) (pk : Nat) (env : Env)
    (fuel i : Nat) (st : SendState) (e : SendAndConfirmError)
    (h : i < st.signedTXs.length)
    (herr : sendSignedTransaction (env.submit st.subC) = .err e)
    (hto : ¬e.etype = .timeout) :
    ∃ st2 : SendState,
      st2.trace = st.trace ++
        [.submitAttempt i (st.signedTXs.get ⟨i, h⟩),
         .failure (.sendErr e) i st.successfulItems
           (lastSuccessfulSet sets st.successfulItems)] ∧
      st2.subC = st.subC + 1 ∧
      submitsOf i st2.trace = submitsOf i st.trace ++ [st.signedTXs.get ⟨i, h⟩] ∧
      sendLoop cfg sets pk env (fuel + 1) i st
        = (if cfg.abortOnFailure then st2
           else sendLoop cfg sets pk env fuel (i + 1) st2) := by
  have hrun := runAttempts_err_bail cfg sets pk env i cfg.maxSigningAttempts 0
    (st.signedTXs.get ⟨i, h⟩) st e herr hto
  have hloop := sendLoop_step_abandoned cfg sets pk env fuel i st _ (.sendErr e) h hrun
  refine ⟨_, ?_, ?_, ?_, hloop⟩
  · simp
  · simp
  · simp only [submitsOf, List.filterMap_append]
    simp

/-- Witness for C6 at a concrete input (a `tx-error` rejection on the
first and only item). -/
theorem c6_nonretryable_witness :
    ∃ st2 : SendState,
      st2.trace = [.submitAttempt 0 ⟨9, 7, [1], [], true⟩,
        .failure (.sendErr ⟨.txError, some 4⟩) 0 0 none] ∧
      st2.subC = 1 ∧
      submitsOf 0 st2.trace = [(⟨9, 7, [1], [], true⟩ : Tx)] ∧
      sendLoop ⟨3, true⟩ [{ instructions := [1], signers := [] }] 9
          ⟨fun _ => (0, 7), fun _ => 0, fun _ => ⟨.confirmedErr 4, none⟩⟩ 1 0
          ⟨[⟨9, 7, [1], [], true⟩], 0, 7, 0, 1, 0, 0, []⟩
        = st2 := by
  have h := c6_nonretryable_abandons_immediately ⟨3, true⟩
    [{ instructions := [1], signers := [] }] 9
    ⟨fun _ => (0, 7), fun _ => 0, fun _ => ⟨.confirmedErr 4, none⟩⟩ 0 0
    ⟨[⟨9, 7, [1], [], true⟩], 0, 7, 0, 1, 0, 0, []⟩ ⟨.txError, some 4⟩
    (by decide) rfl (by decide)
  obtain ⟨st2, h1, h2, h3, h4⟩ := h
  refine ⟨st2, ?_, ?_, ?_, ?_⟩
  · rw [h1]; rfl
  · rw [h2]
  · rw [h3]; rfl
  · rw [h4]; rfl

/-- C5: on a transient timeout with the attempt counter still below
`maxSigningAttempts`, the engine polls the current slot; if the poll
reaches `baseline + 150`, it refreshes the baseline from a freshly fetched
`(slot, nonce)` pair, replaces every envelope from the current index
onward inclusive with one rebuilt from its Operation Set against the fresh
nonce, fires `reSign` — and only after that does the retry submit, and
what it submits is the rebuilt envelope, not the stale one. -/
theorem c5_timeout_rebuild_before_retry
    (cfg : Config) (sets : List InstructionSet) (pk : Nat) (env : Env)
    (i fuel rn : Nat) (tx : Tx) (st : SendState) (e : SendAndConfirmError)
    (herr : sendSignedTransaction (env.submit st.subC) = .err e)
    (hto : e.etype = .timeout)
    (hlt : rn + 1 < cfg.maxSigningAttempts)
    (hpoll : st.slot + 150 ≤ env.pollSlot st.psC)
    (hlen : st.signedTXs.length = sets.length)
    (hi : i < sets.length) :
    runAttempts cfg sets pk env i (fuel + 2) rn tx st
      = runAttempts cfg sets pk env i (fuel + 1) (rn + 1)
          (signTx (buildTx pk (env.slotNonce st.snC).2 (sets.get ⟨i, hi⟩)))
          { st with
            subC := st.subC + 1
            psC := st.psC + 1
            snC := st.snC + 1
            slot := (env.slotNonce st.snC).1
            blockhash := (env.slotNonce st.snC).2
            signedTXs := st.signedTXs.take i ++ (sets.drop i).map
              (fun s => signTx (buildTx pk (env.slotNonce st.snC).2 s))
            trace := st.trace ++ [.submitAttempt i tx, .reSign (rn + 1) i] } ∧
    ∃ evs, (runAttempts cfg sets pk env i (fuel + 2) rn tx st).1.trace
      = st.trace ++ [.submitAttempt i tx, .reSign (rn + 1) i,
          .submitAttempt i
            (signTx (buildTx pk (env.slotNonce st.snC).2 (sets.get ⟨i, hi⟩)))] ++ evs := by
  have h1 := runAttempts_timeout_poll_high cfg sets pk env i (fuel + 1) rn tx st e
    herr hto hlt hpoll
  rw [signAndRebuild_eq sets pk st.signedTXs i (env.slotNonce st.snC).2 (rn + 1)
    hlen hi] at h1
  simp only [Option.getD_some] at h1
  refine ⟨h1, ?_⟩
  rw [h1]
  obtain ⟨evs, he⟩ := runAttempts_trace_starts cfg sets pk env i fuel (rn + 1) _ _
  refine ⟨evs, ?_⟩
  rw [he]
  simp

/-- Witness for C5 at a concrete input (single item, first attempt times
out, poll at slot 200 against baseline 0, fresh nonce 8). -/
theorem c5_timeout_rebuild_witness :
    (runAttempts ⟨3, true⟩ [{ instructions := [1], signers := [] }] 9
        ⟨fun k => if k = 1 then (200, 8) else (0, 7), fun _ => 200,
         fun c => if c = 0 then ⟨.threw true, none⟩ else ⟨.confirmedOk 5, some 0⟩⟩
        0 3 0 ⟨9, 7, [1], [], true⟩
        ⟨[⟨9, 7, [1], [], true⟩], 0, 7, 0, 1, 0, 0, []⟩).1.trace
      = [.submitAttempt 0 ⟨9, 7, [1], [], true⟩, .reSign 1 0,
         .submitAttempt 0 ⟨9, 8, [1], [], true⟩, .progress 0 5] := by
  have h := c5_timeout_rebuild_before_retry ⟨3, true⟩
    [{ instructions := [1], signers := [] }] 9
    ⟨fun k => if k = 1 then (200, 8) else (0, 7), fun _ => 200,
     fun c => if c = 0 then ⟨.threw true, none⟩ else ⟨.confirmedOk 5, some 0⟩⟩
    0 1 0 ⟨9, 7, [1], [], true⟩
    ⟨[⟨9, 7, [1], [], true⟩], 0, 7, 0, 1, 0, 0, []⟩ ⟨.timeout, none⟩
    rfl rfl (by decide) (by decide) (by decide) (by decide)
  rw [h.1]
  decide

/-! ### No-reSign invariant -/

theorem hasReSign_append (l l' : List Event) :
    hasReSign (l ++ l') = (hasReSign l || hasReSign l') := by
  simp [hasReSign]

/-- If every confirmed slot and every polled slot stays below
`slot0 + 150`, the retry loop never fires `reSign` and never moves the
baseline off `slot0`. -/
theorem runAttempts_no_reSign (cfg : Config) (sets : List InstructionSet)
    (pk : Nat) (env : Env) (i : Nat) (slot0 : Nat)
    (hconf : ∀ c t s, sendSignedTransaction (env.submit c) = .ok t s → s < slot0 + 150)
    (hpoll : ∀ p, env.pollSlot p < slot0 + 150) :
    ∀ (fuel rn : Nat) (tx : Tx) (st : SendState), st.slot = slot0 →
      ∃ evs, (runAttempts cfg sets pk env i fuel rn tx st).1.trace = st.trace ++ evs ∧
        hasReSign evs = false ∧
        (runAttempts cfg sets pk env i fuel rn tx st).1.slot = slot0 := by
  intro fuel
  induction fuel with
  | zero =>
    intro rn tx st hslot
    exact ⟨[], by simp [runAttempts_zero], by simp [hasReSign], by
      simp [runAttempts_zero, hslot]⟩
  | succ fuel ih =>
    intro rn tx st hslot
    cases hs : sendSignedTransaction (env.submit st.subC) with
    | ok txid slot' =>
      have hlt : slot' < slot0 + 150 := hconf st.subC txid slot' hs
      rw [runAttempts_ok cfg sets pk env i fuel rn tx st txid slot' hs,
        if_neg (by intro hcon; omega)]
      exact ⟨[.submitAttempt i tx, .progress i txid], rfl, by simp [hasReSign], hslot⟩
    | err e =>
      by_cases hto : e.etype = .timeout
      · by_cases hge : cfg.maxSigningAttempts ≤ rn + 1
        · rw [runAttempts_err_max cfg sets pk env i fuel rn tx st e hs hto hge]
          exact ⟨[.submitAttempt i tx], rfl, by simp [hasReSign], hslot⟩
        · rw [runAttempts_timeout_poll_low cfg sets pk env i fuel rn tx st e hs
            hto (by omega) (by have := hpoll st.psC; omega)]
          obtain ⟨evs, h1, h2, h3⟩ := ih (rn + 1) tx
            { st with
              subC := st.subC + 1
              psC := st.psC + 1
              trace := st.trace ++ [.submitAttempt i tx] } hslot
          refine ⟨Event.submitAttempt i tx :: evs, ?_, ?_, h3⟩
          · rw [h1]; simp
          · simpa [hasReSign] using h2
      · rw [runAttempts_err_bail cfg sets pk env i fuel rn tx st e hs hto]
        exact ⟨[.submitAttempt i tx], rfl, by simp [hasReSign], hslot⟩

/-- The analogue of `runAttempts_no_reSign` for the whole loop. -/
theorem sendLoop_no_reSign (cfg : Config) (sets : List InstructionSet)
    (pk : Nat) (env : Env) (slot0 : Nat)
    (hconf : ∀ c t s, sendSignedTransaction (env.submit c) = .ok t s → s < slot0 + 150)
    (hpoll : ∀ p, env.pollSlot p < slot0 + 150) :
    ∀ (fuel i : Nat) (st : SendState), st.slot = slot0 →
      ∃ evs, (sendLoop cfg sets pk env fuel i st).trace = st.trace ++ evs ∧
        hasReSign evs = false := by
  intro fuel
  induction fuel with
  | zero =>
    intro i st hslot
    exact ⟨[], by simp [sendLoop_zero], by simp [hasReSign]⟩
  | succ fuel ih =>
    intro i st hslot
    by_cases h : i < st.signedTXs.length
    · rcases hp : runAttempts cfg sets pk env i (cfg.maxSigningAttempts + 1) 0
        (st.signedTXs.get ⟨i, h⟩) st with ⟨st', out⟩
      obtain ⟨evs1, h1, h2, h3⟩ := runAttempts_no_reSign cfg sets pk env i slot0
        hconf hpoll (cfg.maxSigningAttempts + 1) 0 (st.signedTXs.get ⟨i, h⟩) st hslot
      rw [hp] at h1 h3
      dsimp only at h1 h3
      cases out with
      | succeeded =>
        rw [sendLoop_step_succeeded cfg sets pk env fuel i st st' h hp]
        obtain ⟨evs2, h4, h5⟩ := ih (i + 1) st' h3
        refine ⟨evs1 ++ evs2, ?_, ?_⟩
        · rw [h4, h1, List.append_assoc]
        · rw [hasReSign_append, h2, h5]; rfl
      | abandoned e =>
        rw [sendLoop_step_abandoned cfg sets pk env fuel i st st' e h hp]
        by_cases hab : cfg.abortOnFailure
        · rw [if_pos hab]
          refine ⟨evs1 ++ [.failure e i st'.successfulItems
            (lastSuccessfulSet sets st'.successfulItems)], ?_, ?_⟩
          · simp only [h1, List.append_assoc]
          · rw [hasReSign_append, h2]; simp [hasReSign]
        · rw [if_neg hab]
          obtain ⟨evs2, h4, h5⟩ := ih (i + 1)
            { st' with trace := st'.trace ++ [.failure e i st'.successfulItems
                (lastSuccessfulSet sets st'.successfulItems)] } h3
          refine ⟨evs1 ++ [.failure e i st'.successfulItems
            (lastSuccessfulSet sets st'.successfulItems)] ++ evs2, ?_, ?_⟩
          · rw [h4]; simp only [h1, List.append_assoc]
          · rw [hasReSign_append, hasReSign_append, h2, h5]
            simp [hasReSign]
    · rw [sendLoop_done cfg sets pk env fuel i st h]
      exact ⟨[], by simp, by simp [hasReSign]⟩

/-- C3 (amended): window expiry is decided by the pure predicate
`isExpired(confirmedSlot, baselineSlot) = confirmedSlot >= baselineSlot + 150`;
after a confirmed submission the engine rebuilds (firing `reSign 0 (i+1)`)
if and only if the predicate holds on the confirmed slot and unsubmitted
envelopes remain; and in every run in which every confirmed slot *and
every slot polled during timeout retries* stays below `baseline + 150`,
`reSign` never fires.  (The polled-slot condition is the amendment: the
retry path also fires `reSign` when a poll crosses the window, which the
claim as stated ignored — see the counterexample.) -/
theorem c3_expiry_predicate_and_resign :
    (∀ confirmedSlot baselineSlot : Nat,
      isExpired confirmedSlot baselineSlot = true ↔
        baselineSlot + 150 ≤ confirmedSlot) ∧
    (∀ (cfg : Config) (sets : List InstructionSet) (pk : Nat) (env : Env)
       (i fuel rn : Nat) (tx : Tx) (st : SendState) (txid slot' : Nat),
      sendSignedTransaction (env.submit st.subC) = .ok txid slot' →
      (runAttempts cfg sets pk env i (fuel + 1) rn tx st).1.trace
        = st.trace ++ [.submitAttempt i tx, .progress i txid] ++
          (if isExpired slot' st.slot = true ∧ i + 1 < st.signedTXs.length
           then [.reSign 0 (i + 1)] else [])) ∧
    (∀ (cfg : Config) (sets : List InstructionSet) (pk : Nat) (env : Env)
       (st : SendState),
      (∀ c t s, sendSignedTransaction (env.submit c) = .ok t s →
        s < (env.slotNonce 0).1 + 150) →
      (∀ p, env.pollSlot p < (env.slotNonce 0).1 + 150) →
      send (some pk) sets cfg env = .ok st →
      hasReSign st.trace = false) := by
  refine ⟨?_, ?_, ?_⟩
  · intro a b
    simp [isExpired]
  · intro cfg sets pk env i fuel rn tx st txid slot' hok
    rw [runAttempts_ok cfg sets pk env i fuel rn tx st txid slot' hok]
    by_cases hc : st.slot + 150 ≤ slot' ∧ i + 1 < st.signedTXs.length
    · rw [if_pos hc, if_pos ⟨by simpa [isExpired] using hc.1, hc.2⟩]
      simp
    · rw [if_neg hc, if_neg (by
        intro hcon
        exact hc ⟨by simpa [isExpired] using hcon.1, hcon.2⟩)]
      simp
  · intro cfg sets pk env st hconf hpoll hsend
    by_cases hne : sets = []
    · subst hne
      simp [send] at hsend
    · rw [send_ok pk sets cfg env hne] at hsend
      obtain ⟨evs, h1, h2⟩ := sendLoop_no_reSign cfg sets pk env
        (env.slotNonce 0).1 hconf hpoll (sets.length + 1) 0
        { signedTXs := ((sets.filter (fun s => !s.instructions.isEmpty)).map
            (buildTx pk (env.slotNonce 0).2)).map signTx
          slot := (env.slotNonce 0).1
          blockhash := (env.slotNonce 0).2
          successfulItems := 0
          snC := 1
          psC := 0
          subC := 0
          trace := [] } rfl
      cases hsend
      rw [h1]
      simpa using h2

/-- C3 counterexample: a run of the code in which every *confirmed* slot
stays below `baseline + 150` (the only confirmation reports slot 0) and
yet `reSign` fires — the first attempt times out and the retry-path poll
returns slot 200 against baseline 0, which triggers the rebuild.  This
refutes the claim's final clause as stated. -/
theorem c3_counterexample :
    (∀ c t s, sendSignedTransaction
        ((⟨fun k => if k = 1 then (200, 8) else (0, 7), fun _ => 200,
          fun c => if c = 0 then ⟨.threw true, none⟩
                   else ⟨.confirmedOk 5, some 0⟩⟩ : Env).submit c) = .ok t s →
      s < ((⟨fun k => if k = 1 then (200, 8) else (0, 7), fun _ => 200,
          fun c => if c = 0 then ⟨.threw true, none⟩
                   else ⟨.confirmedOk 5, some 0⟩⟩ : Env).slotNonce 0).1 + 150) ∧
    ((send (some 9) [{ instructions := [1], signers := [] }] ⟨2, true⟩
        ⟨fun k => if k = 1 then (200, 8) else (0, 7), fun _ => 200,
         fun c => if c = 0 then ⟨.threw true, none⟩
                  else ⟨.confirmedOk 5, some 0⟩⟩).toOption.map
      (fun st => hasReSign st.trace)) = some true := by
  constructor
  · intro c t s h
    by_cases hc : c = 0
    · subst hc
      simp [sendSignedTransaction, sendAndConfirmRawTransactionEx] at h
    · simp only [hc] at h
      simp [sendSignedTransaction, sendAndConfirmRawTransactionEx, if_neg hc] at h
      simp [if_neg hc]
      omega
  · decide

/-- Witness for the amended C3 universal clause at a concrete input
(single item, two timeouts then abandonment; poll stays at slot 0). -/
theorem c3_expiry_witness :
    isExpired 160 0 = true ∧
    ((send (some 9) [{ instructions := [1], signers := [] }] ⟨2, true⟩
        ⟨fun _ => (0, 7), fun _ => 0, fun _ => ⟨.threw true, none⟩⟩).toOption.map
      (fun st => hasReSign st.trace)) = some false := by
  have h := c3_expiry_predicate_and_resign
  constructor
  · exact (h.1 160 0).mpr (by omega)
  · have h3 := h.2.2 ⟨2, true⟩ [{ instructions := [1], signers := [] }] 9
      ⟨fun _ => (0, 7), fun _ => 0, fun _ => ⟨.threw true, none⟩⟩
      (sendLoop ⟨2, true⟩ [{ instructions := [1], signers := [] }] 9
        ⟨fun _ => (0, 7), fun _ => 0, fun _ => ⟨.threw true, none⟩⟩ 2 0
        ⟨[⟨9, 7, [1], [], true⟩], 0, 7, 0, 1, 0, 0, []⟩)
      (by
        intro c t s hcs
        simp [sendSignedTransaction, sendAndConfirmRawTransactionEx] at hcs)
      (by intro p; show (0 : Nat) < 0 + 150; decide)
      (by rfl)
    rw [show (send (some 9) [{ instructions := [1], signers := [] }] ⟨2, true⟩
        ⟨fun _ => (0, 7), fun _ => 0, fun _ => ⟨.threw true, none⟩⟩)
      = .ok (sendLoop ⟨2, true⟩ [{ instructions := [1], signers := [] }] 9
        ⟨fun _ => (0, 7), fun _ => 0, fun _ => ⟨.threw true, none⟩⟩ 2 0
        ⟨[⟨9, 7, [1], [], true⟩], 0, 7, 0, 1, 0, 0, []⟩) from rfl]
    simp only [Except.toOption, Option.map]
    rw [h3]

/-! ### All-success runs -/

theorem filter_nonempty_eq_self (sets : List InstructionSet)
    (hne : ∀ s ∈ sets, s.instructions ≠ []) :
    sets.filter (fun s => !s.instructions.isEmpty) = sets := by
  rw [List.filter_eq_self]
  intro s hs
  simpa using hne s hs

/-- On a first-attempt success, the retry loop succeeds with a state whose
shape we only need abstractly: aligned length, and a trace extended by the
submission, the progress event, and possibly one `reSign 0 (i+1)`. -/
theorem runAttempts_ok_facts (cfg : Config) (sets : List InstructionSet)
    (pk : Nat) (env : Env) (i : Nat) (tx : Tx) (st : SendState) (t s : Nat)
    (hs : sendSignedTransaction (env.submit st.subC) = .ok t s)
    (hlen : st.signedTXs.length = sets.length) :
    ∃ st', runAttempts cfg sets pk env i (cfg.maxSigningAttempts + 1) 0 tx st
        = (st', .succeeded) ∧
      st'.signedTXs.length = sets.length ∧
      ∃ tail, (tail = [] ∨ tail = [Event.reSign 0 (i + 1)]) ∧
        st'.trace = st.trace ++ [.submitAttempt i tx, .progress i t] ++ tail := by
  have hrun := runAttempts_ok cfg sets pk env i cfg.maxSigningAttempts 0 tx st t s hs
  by_cases hc : st.slot + 150 ≤ s ∧ i + 1 < st.signedTXs.length
  · rw [if_pos hc] at hrun
    refine ⟨_, hrun, ?_, [Event.reSign 0 (i + 1)], Or.inr rfl, by simp⟩
    exact signAndRebuild_length sets pk st.signedTXs (i + 1)
      (env.slotNonce st.snC).2 0 hlen (by omega)
  · rw [if_neg hc] at hrun
    exact ⟨_, hrun, hlen, [], Or.inl rfl, by simp⟩

/-- Under an environment in which every submission confirms, the loop
starting at item `i` emits exactly one progress event per remaining item,
at indices `i, i+1, …, n-1`, and no failure events — provided the envelope
array stays aligned with the instruction sets. -/
theorem sendLoop_allOk (cfg : Config) (sets : List InstructionSet) (pk : Nat)
    (env : Env)
    (hok : ∀ c, ∃ t s, sendSignedTransaction (env.submit c) = .ok t s) :
    ∀ (fuel i : Nat) (st : SendState),
      st.signedTXs.length = sets.length → sets.length ≤ fuel + i →
      ∃ evs, (sendLoop cfg sets pk env fuel i st).trace = st.trace ++ evs ∧
        progressIndices evs = List.range' i (sets.length - i) ∧
        failureEvents evs = [] := by
  intro fuel
  induction fuel with
  | zero =>
    intro i st hlen hfuel
    refine ⟨[], by simp [sendLoop_zero], ?_, rfl⟩
    rw [show sets.length - i = 0 from by omega]
    rfl
  | succ fuel ih =>
    intro i st hlen hfuel
    by_cases h : i < st.signedTXs.length
    · obtain ⟨t, s, hs⟩ := hok st.subC
      obtain ⟨st', hrun, hlen', tail, htail, htr⟩ := runAttempts_ok_facts cfg sets
        pk env i (st.signedTXs.get ⟨i, h⟩) st t s hs hlen
      have hcount : sets.length - i = (sets.length - (i + 1)) + 1 := by omega
      rw [sendLoop_step_succeeded cfg sets pk env fuel i st st' h hrun]
      obtain ⟨evs2, h4, h5, h6⟩ := ih (i + 1) st' hlen' (by omega)
      refine ⟨[.submitAttempt i (st.signedTXs.get ⟨i, h⟩), .progress i t]
        ++ tail ++ evs2, ?_, ?_, ?_⟩
      · rw [h4, htr]
        simp
      · rcases htail with hre | hre <;>
        · subst hre
          simp only [progressIndices, List.filterMap_append] at h5 ⊢
          rw [h5, hcount, List.range'_succ]
          rfl
      · rcases htail with hre | hre <;>
        · subst hre
          simp only [failureEvents, List.filter_append] at h6 ⊢
          rw [h6]
          rfl
    · rw [sendLoop_done cfg sets pk env fuel i st h]
      refine ⟨[], by simp, ?_, rfl⟩
      rw [show sets.length - i = 0 from by omega]
      rfl

/-- C8 (amended): for every non-empty batch whose Operation Sets all have
at least one instruction (so that exactly one envelope exists per set and
the count stays fixed), if every submission confirms, then progress fires
exactly `n` times, once per envelope and in index order `0 … n-1`, and the
failure callback never fires.  (The all-sets-nonempty condition is the
amendment: with an empty set in the batch an expiry rebuild grows the
envelope array past the original envelope count — see the
counterexample.) -/
theorem c8_all_success_progress_in_order (sets : List InstructionSet)
    (cfg : Config) (env : Env) (pk : Nat) (st : SendState)
    (hne : ∀ s ∈ sets, s.instructions ≠ [])
    (hok : ∀ c, ∃ t s, sendSignedTransaction (env.submit c) = .ok t s)
    (hsend : send (some pk) sets cfg env = .ok st) :
    progressIndices st.trace = List.range sets.length ∧
    failureEvents st.trace = [] := by
  by_cases hnil : sets = []
  · subst hnil
    simp [send] at hsend
  · rw [send_ok pk sets cfg env hnil] at hsend
    cases hsend
    obtain ⟨evs, h1, h2, h3⟩ := sendLoop_allOk cfg sets pk env hok
      (sets.length + 1) 0
      { signedTXs := ((sets.filter (fun s => !s.instructions.isEmpty)).map
          (buildTx pk (env.slotNonce 0).2)).map signTx
        slot := (env.slotNonce 0).1
        blockhash := (env.slotNonce 0).2
        successfulItems := 0
        snC := 1
        psC := 0
        subC := 0
        trace := [] }
      (by simp [filter_nonempty_eq_self sets hne]) (by omega)
    rw [h1]
    simp only [List.nil_append]
    refine ⟨?_, h3⟩
    rw [h2, List.range_eq_range']
    simp

/-- Witness for the amended C8 at a concrete two-item input. -/
theorem c8_all_success_witness :
    ∃ st, send (some 9)
        [{ instructions := [1], signers := [] }, { instructions := [2], signers := [] }]
        ⟨3, true⟩ ⟨fun _ => (0, 7), fun _ => 0,
          fun c => ⟨.confirmedOk (100 + c), some 0⟩⟩ = .ok st ∧
      progressIndices st.trace = [0, 1] ∧
      failureEvents st.trace = [] := by
  have h := c8_all_success_progress_in_order
    [{ instructions := [1], signers := [] }, { instructions := [2], signers := [] }]
    ⟨3, true⟩ ⟨fun _ => (0, 7), fun _ => 0,
      fun c => ⟨.confirmedOk (100 + c), some 0⟩⟩ 9
    (sendLoop ⟨3, true⟩
      [{ instructions := [1], signers := [] }, { instructions := [2], signers := [] }]
      9 ⟨fun _ => (0, 7), fun _ => 0, fun c => ⟨.confirmedOk (100 + c), some 0⟩⟩
      3 0 ⟨[⟨9, 7, [1], [], true⟩, ⟨9, 7, [2], [], true⟩], 0, 7, 0, 1, 0, 0, []⟩)
    (by intro s hs; fin_cases hs <;> simp)
    (by intro c; exact ⟨100 + c, 0, rfl⟩)
    rfl
  refine ⟨sendLoop ⟨3, true⟩
      [{ instructions := [1], signers := [] }, { instructions := [2], signers := [] }]
      9 ⟨fun _ => (0, 7), fun _ => 0, fun c => ⟨.confirmedOk (100 + c), some 0⟩⟩
      3 0 ⟨[⟨9, 7, [1], [], true⟩, ⟨9, 7, [2], [], true⟩], 0, 7, 0, 1, 0, 0, []⟩,
    rfl, ?_, h.2⟩
  rw [h.1]
  rfl

/-- C8 counterexample: a three-set batch whose middle set is empty builds
only two envelopes, yet when the first confirmation lands at slot 150 the
expiry rebuild (which iterates over the *unfiltered* sets) grows the
array to three envelopes, so progress fires three times — not `n = 2`
times with indices `0..1` — even though every submission succeeded on its
first attempt and no failure fired. -/
theorem c8_counterexample :
    ((send (some 9)
        [{ instructions := [1], signers := [] }, { instructions := [], signers := [] },
         { instructions := [2], signers := [] }]
        ⟨3, true⟩
        ⟨fun _ => (0, 7), fun _ => 0,
         fun c => ⟨.confirmedOk (100 + c), if c = 0 then some 150 else some 0⟩⟩).toOption.map
      (fun st => (progressIndices st.trace, submitIndices st.trace,
        failureEvents st.trace)))
      = some ([0, 1, 2], [0, 1, 2], []) ∧
    (([{ instructions := [1], signers := [] }, { instructions := [], signers := [] },
       { instructions := [2], signers := [] }].filter
        (fun s => !s.instructions.isEmpty)).map (buildTx 9 7)).length = 2 := by
  constructor
  · rfl
  · rfl

/-! ### Envelope/Operation-Set alignment -/

/-- The transaction `t` is built from the Operation Set at position `j`:
it carries exactly that set's instructions and co-signers. -/
def builtFrom (sets : List InstructionSet) (j : Nat) (t : Tx) : Prop :=
  ∃ s, sets[j]? = some s ∧ t.instructions = s.instructions ∧ t.signers = s.signers

/-- The envelope array is aligned with the instruction sets: exactly one
envelope per set index, each built from the set at its own index. -/
def Aligned (sets : List InstructionSet) (txs : List Tx) : Prop :=
  txs.length = sets.length ∧ ∀ j t, txs[j]? = some t → builtFrom sets j t

/-- Events the retry loop for item `i` can emit: submissions of item `i`
with a correctly-built transaction, progress for item `i`, and re-sign
events for `i` (retry path) or `i + 1` (post-success rebuild). -/
def itemEvent (sets : List InstructionSet) (i : Nat) : Event → Prop
  | .submitAttempt j t => j = i ∧ builtFrom sets j t
  | .progress j _ => j = i
  | .reSign _ j => j = i ∨ j = i + 1
  | .failure _ _ _ _ => False

theorem mem_submitIndices (x : Nat) (l : List Event) :
    x ∈ submitIndices l ↔ ∃ t, Event.submitAttempt x t ∈ l := by
  simp only [submitIndices, List.mem_filterMap]
  constructor
  · rintro ⟨e, he, hm⟩
    cases e with
    | submitAttempt j t =>
      simp only [Option.some.injEq] at hm
      subst hm
      exact ⟨t, he⟩
    | progress j t => simp at hm
    | reSign a j => simp at hm
    | failure er a b c => simp at hm
  · rintro ⟨t, ht⟩
    exact ⟨.submitAttempt x t, ht, rfl⟩

theorem terminalIndices_append (a b : List Event) :
    terminalIndices (a ++ b) = terminalIndices a ++ terminalIndices b := by
  simp [terminalIndices]

theorem progress_mem_terminalIndices (m t : Nat) (l : List Event)
    (h : Event.progress m t ∈ l) : m ∈ terminalIndices l := by
  simp only [terminalIndices, List.mem_filterMap]
  exact ⟨.progress m t, h, rfl⟩

theorem failure_mem_terminalIndices (er : JsError) (m a3 : Nat)
    (a4 : Option InstructionSet) (l : List Event)
    (h : Event.failure er m a3 a4 ∈ l) : m ∈ terminalIndices l := by
  simp only [terminalIndices, List.mem_filterMap]
  exact ⟨.failure er m a3 a4, h, rfl⟩

/-- The freshly signed initial envelope array of `send` is aligned when
every set is non-empty. -/
theorem aligned_initial (sets : List InstructionSet) (pk bh : Nat)
    (hne : ∀ s ∈ sets, s.instructions ≠ []) :
    Aligned sets
      (((sets.filter (fun s => !s.instructions.isEmpty)).map (buildTx pk bh)).map
        signTx) := by
  rw [filter_nonempty_eq_self sets hne]
  constructor
  · simp
  · intro j t hjt
    simp only [List.getElem?_map] at hjt
    cases hs : sets[j]? with
    | none => rw [hs] at hjt; simp at hjt
    | some s =>
      rw [hs] at hjt
      simp only [Option.map_some'] at hjt
      cases hjt
      exact ⟨s, hs, rfl, rfl⟩

/-- Rebuilding preserves alignment. -/
theorem aligned_rebuild (sets : List InstructionSet) (pk bh index attempt : Nat)
    (txs : List Tx) (hA : Aligned sets txs) (hidx : index < sets.length) :
    Aligned sets
      (signAndRebuildTransactionsFromInstructionSets sets pk txs index bh
        attempt).2.1 := by
  obtain ⟨hlen, hget⟩ := hA
  rw [signAndRebuild_eq sets pk txs index bh attempt hlen hidx]
  have htk : (txs.take index).length = index := by
    rw [List.length_take]; omega
  constructor
  · simp only [List.length_append, List.length_map, List.length_drop, htk]
    omega
  · intro j t hjt
    by_cases hj : j < index
    · rw [List.getElem?_append_left (by omega)] at hjt
      rw [List.getElem?_take_of_lt hj] at hjt
      exact hget j t hjt
    · rw [List.getElem?_append_right (by omega)] at hjt
      rw [htk] at hjt
      simp only [List.getElem?_map, List.getElem?_drop] at hjt
      rw [show index + (j - index) = j from by omega] at hjt
      cases hs : sets[j]? with
      | none => rw [hs] at hjt; simp at hjt
      | some s =>
        rw [hs] at hjt
        simp only [Option.map_some'] at hjt
        cases hjt
        exact ⟨s, hs, rfl, rfl⟩

/-- Master characterization of the retry loop for item `i`: it preserves
alignment, appends only item-`i` events (submissions of item `i` built from
set `i`, progress for `i`, re-sign for `i` or `i+1`, never a failure
event), and emits a progress event for `i` whenever it succeeds. -/
theorem runAttempts_item_events (cfg : Config) (sets : List InstructionSet)
    (pk : Nat) (env : Env) (i : Nat) :
    ∀ (fuel rn : Nat) (tx : Tx) (st : SendState),
      Aligned sets st.signedTXs → builtFrom sets i tx → i < sets.length →
      ∃ evs st' out,
        runAttempts cfg sets pk env i fuel rn tx st = (st', out) ∧
        st'.trace = st.trace ++ evs ∧
        Aligned sets st'.signedTXs ∧
        (∀ e ∈ evs, itemEvent sets i e) ∧
        (out = .succeeded → ∃ t, Event.progress i t ∈ evs) := by
  intro fuel
  induction fuel with
  | zero =>
    intro rn tx st hA htx hi
    exact ⟨[], st, .abandoned (.error "RETRIES_EXHAUSTED"),
      runAttempts_zero cfg sets pk env i rn tx st, by simp, hA, by simp,
      fun h => nomatch h⟩
  | succ fuel ih =>
    intro rn tx st hA htx hi
    have hilen : i < st.signedTXs.length := by
      have := hA.1; omega
    cases hs : sendSignedTransaction (env.submit st.subC) with
    | ok t s =>
      have hrun := runAttempts_ok cfg sets pk env i fuel rn tx st t s hs
      by_cases hc : st.slot + 150 ≤ s ∧ i + 1 < st.signedTXs.length
      · rw [if_pos hc] at hrun
        refine ⟨[.submitAttempt i tx, .progress i t, .reSign 0 (i + 1)], _, _,
          hrun, by simp, ?_, ?_, ?_⟩
        · exact aligned_rebuild sets pk (env.slotNonce st.snC).2 (i + 1) 0
            st.signedTXs hA (by have := hA.1; omega)
        · intro e he
          simp only [List.mem_cons, List.not_mem_nil, or_false] at he
          rcases he with rfl | rfl | rfl
          · exact ⟨rfl, htx⟩
          · exact rfl
          · exact Or.inr rfl
        · intro _
          exact ⟨t, by simp⟩
      · rw [if_neg hc] at hrun
        refine ⟨[.submitAttempt i tx, .progress i t], _, _, hrun, by simp,
          hA, ?_, ?_⟩
        · intro e he
          simp only [List.mem_cons, List.not_mem_nil, or_false] at he
          rcases he with rfl | rfl
          · exact ⟨rfl, htx⟩
          · exact rfl
        · intro _
          exact ⟨t, by simp⟩
    | err e =>
      by_cases hto : e.etype = .timeout
      · by_cases hge : cfg.maxSigningAttempts ≤ rn + 1
        · refine ⟨[.submitAttempt i tx], _, _,
            runAttempts_err_max cfg sets pk env i fuel rn tx st e hs hto hge,
            by simp, hA, ?_, fun h => nomatch h⟩
          intro ev hev
          simp only [List.mem_cons, List.not_mem_nil, or_false] at hev
          subst hev
          exact ⟨rfl, htx⟩
        · by_cases hp : st.slot + 150 ≤ env.pollSlot st.psC
          · have heq := runAttempts_timeout_poll_high cfg sets pk env i fuel rn
              tx st e hs hto (by omega) hp
            have hA4 : Aligned sets
                (signAndRebuildTransactionsFromInstructionSets sets pk
                  st.signedTXs i (env.slotNonce st.snC).2 (rn + 1)).2.1 :=
              aligned_rebuild sets pk (env.slotNonce st.snC).2 i (rn + 1)
                st.signedTXs hA hi
            have hret : (signAndRebuildTransactionsFromInstructionSets sets pk
                st.signedTXs i (env.slotNonce st.snC).2 (rn + 1)).2.2
                = some (signTx (buildTx pk (env.slotNonce st.snC).2
                    (sets.get ⟨i, hi⟩))) := by
              rw [signAndRebuild_eq sets pk st.signedTXs i
                (env.slotNonce st.snC).2 (rn + 1) hA.1 hi]
            have htx' : builtFrom sets i
                ((signAndRebuildTransactionsFromInstructionSets sets pk
                  st.signedTXs i (env.slotNonce st.snC).2 (rn + 1)).2.2.getD tx) := by
              rw [hret, Option.getD_some]
              exact ⟨sets.get ⟨i, hi⟩, by simp, rfl, rfl⟩
            obtain ⟨evs', st', out, hrec, htr', hA', hev', hsucc'⟩ :=
              ih (rn + 1)
                ((signAndRebuildTransactionsFromInstructionSets sets pk
                  st.signedTXs i (env.slotNonce st.snC).2 (rn + 1)).2.2.getD tx)
                { st with
                  subC := st.subC + 1
                  psC := st.psC + 1
                  snC := st.snC + 1
                  slot := (env.slotNonce st.snC).1
                  blockhash := (env.slotNonce st.snC).2
                  signedTXs := (signAndRebuildTransactionsFromInstructionSets
                    sets pk st.signedTXs i (env.slotNonce st.snC).2 (rn + 1)).2.1
                  trace := st.trace ++ [.submitAttempt i tx, .reSign (rn + 1) i] }
                hA4 htx' hi
            refine ⟨.submitAttempt i tx :: .reSign (rn + 1) i :: evs', st', out,
              by rw [heq]; exact hrec, ?_, hA', ?_, ?_⟩
            · rw [htr']
              simp
            · intro ev hev
              simp only [List.mem_cons] at hev
              rcases hev with rfl | rfl | hev
              · exact ⟨rfl, htx⟩
              · exact Or.inl rfl
              · exact hev' ev hev
            · intro houts
              obtain ⟨t, ht⟩ := hsucc' houts
              exact ⟨t, by simp [ht]⟩
          · have heq := runAttempts_timeout_poll_low cfg sets pk env i fuel rn
              tx st e hs hto (by omega) (by omega)
            obtain ⟨evs', st', out, hrec, htr', hA', hev', hsucc'⟩ :=
              ih (rn + 1) tx
                { st with
                  subC := st.subC + 1
                  psC := st.psC + 1
                  trace := st.trace ++ [.submitAttempt i tx] }
                hA htx hi
            refine ⟨.submitAttempt i tx :: evs', st', out,
              by rw [heq]; exact hrec, ?_, hA', ?_, ?_⟩
            · rw [htr']
              simp
            · intro ev hev
              simp only [List.mem_cons] at hev
              rcases hev with rfl | hev
              · exact ⟨rfl, htx⟩
              · exact hev' ev hev
            · intro houts
              obtain ⟨t, ht⟩ := hsucc' houts
              exact ⟨t, by simp [ht]⟩
      · refine ⟨[.submitAttempt i tx], _, _,
          runAttempts_err_bail cfg sets pk env i fuel rn tx st e hs hto,
          by simp, hA, ?_, fun h => nomatch h⟩
        intro ev hev
        simp only [List.mem_cons, List.not_mem_nil, or_false] at hev
        subst hev
        exact ⟨rfl, htx⟩

theorem submitIndices_append (a b : List Event) :
    submitIndices (a ++ b) = submitIndices a ++ submitIndices b := by
  simp [submitIndices]

/-- Composing one item's event block (all submissions at index `i`, a
terminal event for `i` somewhere inside) with the events of the rest of
the loop (everything at indices `≥ i+1`). -/
theorem item_block_compose (sets : List InstructionSet) (i : Nat)
    (B evs2 : List Event)
    (hBsub : ∀ j t, Event.submitAttempt j t ∈ B → j = i ∧ builtFrom sets j t)
    (hBterm : i ∈ terminalIndices B)
    (hsub2 : ∀ j t, Event.submitAttempt j t ∈ evs2 → i + 1 ≤ j ∧ builtFrom sets j t)
    (hchain2 : (submitIndices evs2).Chain' (· ≤ ·))
    (hterm2 : ∀ l j t r, evs2 = l ++ Event.submitAttempt j t :: r →
      ∀ m, i + 1 ≤ m → m < j → m ∈ terminalIndices l) :
    (∀ j t, Event.submitAttempt j t ∈ B ++ evs2 → i ≤ j ∧ builtFrom sets j t) ∧
    (submitIndices (B ++ evs2)).Chain' (· ≤ ·) ∧
    (∀ l j t r, B ++ evs2 = l ++ Event.submitAttempt j t :: r →
      ∀ m, i ≤ m → m < j → m ∈ terminalIndices l) := by
  refine ⟨?_, ?_, ?_⟩
  · intro j t hm
    rcases List.mem_append.mp hm with hm | hm
    · obtain ⟨hj, hb⟩ := hBsub j t hm
      exact ⟨by omega, hb⟩
    · obtain ⟨hj, hb⟩ := hsub2 j t hm
      exact ⟨by omega, hb⟩
  · rw [submitIndices_append, List.chain'_append]
    refine ⟨chain'_le_of_all_eq i _ ?_, hchain2, ?_⟩
    · intro x hx
      obtain ⟨t, ht⟩ := (mem_submitIndices x B).mp hx
      exact (hBsub x t ht).1
    · intro x hx y hy
      obtain ⟨t, ht⟩ := (mem_submitIndices x B).mp (List.mem_of_mem_getLast? hx)
      obtain ⟨t2, ht2⟩ := (mem_submitIndices y evs2).mp (List.mem_of_mem_head? hy)
      have h1 := (hBsub x t ht).1
      have h2 := (hsub2 y t2 ht2).1
      omega
  · intro l j t r hsplit m him hmj
    rcases List.append_eq_append_iff.mp hsplit with ⟨a', hl, hevs2⟩ | ⟨c', hB, hcr⟩
    · have hj : i + 1 ≤ j := (hsub2 j t (by
        rw [hevs2]
        exact List.mem_append_right _ (List.mem_cons_self _ _))).1
      subst hl
      rw [terminalIndices_append]
      by_cases hmi : m = i
      · subst hmi
        exact List.mem_append_left _ hBterm
      · exact List.mem_append_right _ (hterm2 a' j t r hevs2 m (by omega) hmj)
    · cases c' with
      | nil =>
        have hlB : B = l := by simpa using hB
        have hevs2 : evs2 = [] ++ Event.submitAttempt j t :: r := by
          simpa using hcr.symm
        have hmem : Event.submitAttempt j t ∈ evs2 := by
          rw [hevs2]
          exact List.mem_cons_self _ _
        have hj : i + 1 ≤ j := (hsub2 j t hmem).1
        by_cases hmi : m = i
        · subst hmi
          rw [← hlB]
          exact hBterm
        · have := hterm2 [] j t r hevs2 m (by omega) hmj
          simp [terminalIndices] at this
      | cons e c'' =>
        have hcr' : Event.submitAttempt j t :: r = e :: (c'' ++ evs2) := by
          simpa using hcr
        have he : Event.submitAttempt j t = e := by injection hcr'
        have hmem : Event.submitAttempt j t ∈ B := by
          rw [hB, ← he]
          exact List.mem_append_right _ (List.mem_cons_self _ _)
        have := (hBsub j t hmem).1
        omega

/-- Master characterization of the main loop from item `i`: alignment is
preserved, every submission in the appended events targets an index
`≥ i` and carries a transaction built from the set at that index,
submission indices are non-decreasing, and any submission of index `j` is
preceded by a terminal event (progress or failure) for every index in
`[i, j)`. -/
theorem sendLoop_item_events (cfg : Config) (sets : List InstructionSet)
    (pk : Nat) (env : Env) :
    ∀ (fuel i : Nat) (st : SendState),
      Aligned sets st.signedTXs →
      ∃ evs, (sendLoop cfg sets pk env fuel i st).trace = st.trace ++ evs ∧
        Aligned sets (sendLoop cfg sets pk env fuel i st).signedTXs ∧
        (∀ j t, Event.submitAttempt j t ∈ evs → i ≤ j ∧ builtFrom sets j t) ∧
        (submitIndices evs).Chain' (· ≤ ·) ∧
        (∀ l j t r, evs = l ++ Event.submitAttempt j t :: r →
          ∀ m, i ≤ m → m < j → m ∈ terminalIndices l) := by
  intro fuel
  induction fuel with
  | zero =>
    intro i st hA
    exact ⟨[], by simp [sendLoop_zero], by rw [sendLoop_zero]; exact hA,
      by simp, by simp [submitIndices], by
        intro l j t r hsplit m _ _
        exact absurd hsplit.symm (by simp)⟩
  | succ fuel ih =>
    intro i st hA
    by_cases h : i < st.signedTXs.length
    · have hi : i < sets.length := by
        have := hA.1; omega
      have htx : builtFrom sets i (st.signedTXs.get ⟨i, h⟩) := by
        apply hA.2
        rw [List.get_eq_getElem]
        exact List.getElem?_eq_getElem h
      obtain ⟨evs1, st', out, hrun, htr1, hA', hev1, hsucc1⟩ :=
        runAttempts_item_events cfg sets pk env i (cfg.maxSigningAttempts + 1) 0
          (st.signedTXs.get ⟨i, h⟩) st hA htx hi
      have hBsub1 : ∀ j t, Event.submitAttempt j t ∈ evs1 →
          j = i ∧ builtFrom sets j t := by
        intro j t hm
        exact hev1 _ hm
      cases out with
      | succeeded =>
        rw [sendLoop_step_succeeded cfg sets pk env fuel i st st' h hrun]
        obtain ⟨evs2, htr2, hA2, hsub2, hchain2, hterm2⟩ := ih (i + 1) st' hA'
        obtain ⟨hc1, hc2, hc3⟩ := item_block_compose sets i evs1 evs2 hBsub1
          (by
            obtain ⟨t, ht⟩ := hsucc1 rfl
            exact progress_mem_terminalIndices i t evs1 ht)
          hsub2 hchain2 hterm2
        exact ⟨evs1 ++ evs2, by rw [htr2, htr1, List.append_assoc], hA2,
          hc1, hc2, hc3⟩
      | abandoned e =>
        rw [sendLoop_step_abandoned cfg sets pk env fuel i st st' e h hrun]
        have hBsub : ∀ j t, Event.submitAttempt j t ∈ evs1 ++
            [Event.failure e i st'.successfulItems
              (lastSuccessfulSet sets st'.successfulItems)] →
            j = i ∧ builtFrom sets j t := by
          intro j t hm
          rcases List.mem_append.mp hm with hm | hm
          · exact hBsub1 j t hm
          · simp at hm
        have hBterm : i ∈ terminalIndices (evs1 ++
            [Event.failure e i st'.successfulItems
              (lastSuccessfulSet sets st'.successfulItems)]) :=
          failure_mem_terminalIndices e i st'.successfulItems
            (lastSuccessfulSet sets st'.successfulItems) _
            (List.mem_append_right _ (List.mem_cons_self _ _))
        by_cases hab : cfg.abortOnFailure
        · rw [if_pos hab]
          obtain ⟨hc1, hc2, hc3⟩ := item_block_compose sets i
            (evs1 ++ [Event.failure e i st'.successfulItems
              (lastSuccessfulSet sets st'.successfulItems)]) [] hBsub hBterm
            (by simp) (by simp [submitIndices]) (by
              intro l j t r hsplit m _ _
              exact absurd hsplit.symm (by simp))
          refine ⟨evs1 ++ [Event.failure e i st'.successfulItems
              (lastSuccessfulSet sets st'.successfulItems)], ?_, hA',
            ?_, ?_, ?_⟩
          · show st'.trace ++ _ = _
            rw [htr1]
            simp
          · simpa using hc1
          · simpa using hc2
          · simpa using hc3
        · rw [if_neg hab]
          obtain ⟨evs2, htr2, hA2, hsub2, hchain2, hterm2⟩ := ih (i + 1)
            { st' with trace := st'.trace ++
                [Event.failure e i st'.successfulItems
                  (lastSuccessfulSet sets st'.successfulItems)] } hA'
          obtain ⟨hc1, hc2, hc3⟩ := item_block_compose sets i
            (evs1 ++ [Event.failure e i st'.successfulItems
              (lastSuccessfulSet sets st'.successfulItems)]) evs2 hBsub hBterm
            hsub2 hchain2 hterm2
          refine ⟨(evs1 ++ [Event.failure e i st'.successfulItems
              (lastSuccessfulSet sets st'.successfulItems)]) ++ evs2, ?_, hA2,
            hc1, hc2, hc3⟩
          rw [htr2]
          show (st'.trace ++ _) ++ _ = _
          rw [htr1]
          simp
    · rw [sendLoop_done cfg sets pk env fuel i st h]
      exact ⟨[], by simp, hA, by simp, by simp [submitIndices], by
        intro l j t r hsplit m _ _
        exact absurd hsplit.symm (by simp)⟩

/-- C2 (amended): for every batch whose Operation Sets all have at least
one instruction, throughout `send`'s execution exactly one envelope exists
per Operation Set index — the final array has one envelope per set, every
envelope ever submitted for index `j` is built from the Operation Set at
position `j` — and submission order equals input order: submission indices
are non-decreasing, and before any submission of envelope `j` every earlier
index (in particular `j-1`) has already reached a terminal outcome
(progress or failure).  (The all-sets-nonempty condition is the amendment:
zero-instruction sets are filtered out before signing, so with such a set
in the batch there are fewer envelopes than sets and envelope `j` is not
built from set `j` — see the counterexample.) -/
theorem c2_one_envelope_per_index_in_order (sets : List InstructionSet)
    (cfg : Config) (env : Env) (pk : Nat) (st : SendState)
    (hne : ∀ s ∈ sets, s.instructions ≠ [])
    (hsend : send (some pk) sets cfg env = .ok st) :
    st.signedTXs.length = sets.length ∧
    (∀ j t, Event.submitAttempt j t ∈ st.trace → builtFrom sets j t) ∧
    (submitIndices st.trace).Chain' (· ≤ ·) ∧
    (∀ l j t r, st.trace = l ++ Event.submitAttempt j t :: r →
      ∀ m, m < j → m ∈ terminalIndices l) := by
  by_cases hnil : sets = []
  · subst hnil
    simp [send] at hsend
  · rw [send_ok pk sets cfg env hnil] at hsend
    cases hsend
    have hA0 := aligned_initial sets pk (env.slotNonce 0).2 hne
    obtain ⟨evs, htr, hAf, hsub, hchain, hterm⟩ := sendLoop_item_events cfg sets
      pk env (sets.length + 1) 0
      { signedTXs := ((sets.filter (fun s => !s.instructions.isEmpty)).map
          (buildTx pk (env.slotNonce 0).2)).map signTx
        slot := (env.slotNonce 0).1
        blockhash := (env.slotNonce 0).2
        successfulItems := 0
        snC := 1
        psC := 0
        subC := 0
        trace := [] } hA0
    rw [List.nil_append] at htr
    refine ⟨hAf.1, ?_, ?_, ?_⟩
    · intro j t hm
      rw [htr] at hm
      exact (hsub j t hm).2
    · rw [htr]
      exact hchain
    · intro l j t r hsplit m hmj
      rw [htr] at hsplit
      exact hterm l j t r hsplit m (Nat.zero_le m) hmj

/-- Witness for the amended C2 at a concrete two-item input. -/
theorem c2_one_envelope_witness :
    ∃ st, send (some 9)
        [{ instructions := [1], signers := [] }, { instructions := [2], signers := [] }]
        ⟨3, true⟩ ⟨fun _ => (0, 7), fun _ => 0,
          fun c => ⟨.confirmedOk (100 + c), some 0⟩⟩ = .ok st ∧
      st.signedTXs.length = 2 ∧
      (submitIndices st.trace).Chain' (· ≤ ·) := by
  have h := c2_one_envelope_per_index_in_order
    [{ instructions := [1], signers := [] }, { instructions := [2], signers := [] }]
    ⟨3, true⟩ ⟨fun _ => (0, 7), fun _ => 0,
      fun c => ⟨.confirmedOk (100 + c), some 0⟩⟩ 9
    (sendLoop ⟨3, true⟩
      [{ instructions := [1], signers := [] }, { instructions := [2], signers := [] }]
      9 ⟨fun _ => (0, 7), fun _ => 0, fun c => ⟨.confirmedOk (100 + c), some 0⟩⟩
      3 0 ⟨[⟨9, 7, [1], [], true⟩, ⟨9, 7, [2], [], true⟩], 0, 7, 0, 1, 0, 0, []⟩)
    (by intro s hs; fin_cases hs <;> simp)
    rfl
  refine ⟨sendLoop ⟨3, true⟩
      [{ instructions := [1], signers := [] }, { instructions := [2], signers := [] }]
      9 ⟨fun _ => (0, 7), fun _ => 0, fun c => ⟨.confirmedOk (100 + c), some 0⟩⟩
      3 0 ⟨[⟨9, 7, [1], [], true⟩, ⟨9, 7, [2], [], true⟩], 0, 7, 0, 1, 0, 0, []⟩,
    rfl, ?_, h.2.2.1⟩
  rw [h.1]
  rfl

/-- C2 counterexample: with a zero-instruction Operation Set in the batch
the one-envelope-per-set-index invariant fails — the batch
`[empty, {[1]}]` yields a single envelope (for two sets), and that
envelope at position 0 is built from the Operation Set at position 1. -/
theorem c2_counterexample :
    ((send (some 9)
        [{ instructions := [], signers := [] }, { instructions := [1], signers := [] }]
        ⟨3, true⟩
        ⟨fun _ => (0, 7), fun _ => 0,
         fun c => ⟨.confirmedOk (100 + c), some 0⟩⟩).toOption.map
      (fun st => (st.signedTXs.length, st.signedTXs.map Tx.instructions)))
      = some (1, [[1]]) ∧
    ([{ instructions := [], signers := [] },
      { instructions := [1], signers := [] }] : List InstructionSet).length = 2 := by
  constructor
  · rfl
  · rfl

/-! ### All-timeout runs -/

/-- The failure events of a trace whose failed-index argument is `kk`. -/
def failuresAt (kk : Nat) (tr : List Event) : List Event :=
  tr.filter fun e =>
    match e with
    | .failure _ j _ _ => j == kk
    | _ => false

/-- If every submission from the current counter on times out and every
poll stays below the window, the retry loop submits the same transaction
exactly `maxSigningAttempts - rn` more times and abandons with
`MAX_RESIGN_ATTEMPTS_REACHED`, leaving everything else unchanged. -/
theorem runAttempts_all_timeout (cfg : Config) (sets : List InstructionSet)
    (pk : Nat) (env : Env) (i : Nat) (slot0 : Nat)
    (hpoll : ∀ p, env.pollSlot p < slot0 + 150) :
    ∀ (fuel rn : Nat) (tx : Tx) (st : SendState),
      st.slot = slot0 →
      (∀ c, st.subC ≤ c → ∃ e, sendSignedTransaction (env.submit c) = .err e ∧
        e.etype = .timeout) →
      rn < cfg.maxSigningAttempts →
      cfg.maxSigningAttempts - rn ≤ fuel →
      runAttempts cfg sets pk env i fuel rn tx st
        = ({ st with
             subC := st.subC + (cfg.maxSigningAttempts - rn)
             psC := st.psC + (cfg.maxSigningAttempts - rn - 1)
             trace := st.trace ++ List.replicate (cfg.maxSigningAttempts - rn)
               (.submitAttempt i tx) },
           .abandoned (.error "MAX_RESIGN_ATTEMPTS_REACHED")) := by
  intro fuel
  induction fuel with
  | zero =>
    intro rn tx st _ _ hrn hfuel
    omega
  | succ fuel ih =>
    intro rn tx st hslot hto hrn hfuel
    obtain ⟨e, hs, het⟩ := hto st.subC (le_refl _)
    by_cases hge : cfg.maxSigningAttempts ≤ rn + 1
    · rw [runAttempts_err_max cfg sets pk env i fuel rn tx st e hs het hge]
      rw [show cfg.maxSigningAttempts - rn = 1 from by omega]
      rfl
    · rw [runAttempts_timeout_poll_low cfg sets pk env i fuel rn tx st e hs het
        (by omega) (by have := hpoll st.psC; omega)]
      rw [ih (rn + 1) tx
        { st with
          subC := st.subC + 1
          psC := st.psC + 1
          trace := st.trace ++ [.submitAttempt i tx] }
        hslot (by intro c hc; exact hto c (Nat.le_of_succ_le hc)) (by omega)
        (by omega)]
      have htr : (st.trace ++ [Event.submitAttempt i tx]) ++
          List.replicate (cfg.maxSigningAttempts - (rn + 1))
            (Event.submitAttempt i tx)
          = st.trace ++ List.replicate (cfg.maxSigningAttempts - rn)
            (Event.submitAttempt i tx) := by
        rw [List.append_assoc, List.singleton_append, ← List.replicate_succ]
        rw [show cfg.maxSigningAttempts - (rn + 1) + 1
          = cfg.maxSigningAttempts - rn from by omega]
      refine congrArg (fun x => (x,
        ItemOutcome.abandoned (.error "MAX_RESIGN_ATTEMPTS_REACHED"))) ?_
      congr 1
      all_goals dsimp only
      all_goals omega

theorem failuresAt_append (kk : Nat) (a b : List Event) :
    failuresAt kk (a ++ b) = failuresAt kk a ++ failuresAt kk b := by
  simp [failuresAt]

theorem submitsOf_append (kk : Nat) (a b : List Event) :
    submitsOf kk (a ++ b) = submitsOf kk a ++ submitsOf kk b := by
  simp [submitsOf]

theorem progressIndices_append (a b : List Event) :
    progressIndices (a ++ b) = progressIndices a ++ progressIndices b := by
  simp [progressIndices]

/-- An item block made of `n` identical submissions of item `i` followed by
a failure event for item `i` contributes nothing at any index `k ≠ i`, and
no progress at all. -/
theorem offIndex_block_projections (k i : Nat) (hik : ¬i = k) (tx : Tx)
    (er : JsError) (a3 : Nat) (a4 : Option InstructionSet) (n : Nat) :
    failuresAt k (List.replicate n (Event.submitAttempt i tx) ++
      [Event.failure er i a3 a4]) = [] ∧
    submitsOf k (List.replicate n (Event.submitAttempt i tx) ++
      [Event.failure er i a3 a4]) = [] ∧
    progressIndices (List.replicate n (Event.submitAttempt i tx) ++
      [Event.failure er i a3 a4]) = [] := by
  refine ⟨?_, ?_, ?_⟩
  · rw [failuresAt, List.filter_eq_nil]
    intro e he
    rcases List.mem_append.mp he with he | he
    · rw [List.eq_of_mem_replicate he]
      simp
    · simp only [List.mem_singleton] at he
      subst he
      simp [hik]
  · rw [submitsOf, List.filterMap_eq_nil]
    intro e he
    rcases List.mem_append.mp he with he | he
    · rw [List.eq_of_mem_replicate he]
      simp [hik]
    · simp only [List.mem_singleton] at he
      subst he
      rfl
  · rw [progressIndices, List.filterMap_eq_nil]
    intro e he
    rcases List.mem_append.mp he with he | he
    · rw [List.eq_of_mem_replicate he]
    · simp only [List.mem_singleton] at he
      subst he
      rfl

/-- After the failing item, with every further submission timing out, the
loop never touches index `k` again: no submission, no failure event at
`k`, and no progress at all. -/
theorem sendLoop_after_k (cfg : Config) (sets : List InstructionSet)
    (pk : Nat) (env : Env) (slot0 k : Nat)
    (hmax : 1 ≤ cfg.maxSigningAttempts)
    (hto : ∀ c, k ≤ c → ∃ e, sendSignedTransaction (env.submit c) = .err e ∧
      e.etype = .timeout)
    (hpoll : ∀ p, env.pollSlot p < slot0 + 150) :
    ∀ (fuel i : Nat) (st : SendState), k < i → k ≤ st.subC → st.slot = slot0 →
      ∃ evs, (sendLoop cfg sets pk env fuel i st).trace = st.trace ++ evs ∧
        failuresAt k evs = [] ∧ submitsOf k evs = [] ∧
        progressIndices evs = [] := by
  intro fuel
  induction fuel with
  | zero =>
    intro i st _ _ _
    exact ⟨[], by simp [sendLoop_zero], rfl, rfl, rfl⟩
  | succ fuel ih =>
    intro i st hki hsub hslot
    by_cases h : i < st.signedTXs.length
    · have hrun := runAttempts_all_timeout cfg sets pk env i slot0 hpoll
        (cfg.maxSigningAttempts + 1) 0 (st.signedTXs.get ⟨i, h⟩) st hslot
        (by intro c hc; exact hto c (by omega)) (by omega) (by omega)
      rw [sendLoop_step_abandoned cfg sets pk env fuel i st _
        (.error "MAX_RESIGN_ATTEMPTS_REACHED") h hrun]
      obtain ⟨hf, hsm, hpr⟩ := offIndex_block_projections k i (by omega)
        (st.signedTXs.get ⟨i, h⟩) (.error "MAX_RESIGN_ATTEMPTS_REACHED")
        st.successfulItems (lastSuccessfulSet sets st.successfulItems)
        (cfg.maxSigningAttempts - 0)
      by_cases hab : cfg.abortOnFailure
      · rw [if_pos hab]
        refine ⟨List.replicate (cfg.maxSigningAttempts - 0)
          (Event.submitAttempt i (st.signedTXs.get ⟨i, h⟩)) ++
          [Event.failure (.error "MAX_RESIGN_ATTEMPTS_REACHED") i
            st.successfulItems (lastSuccessfulSet sets st.successfulItems)],
          ?_, hf, hsm, hpr⟩
        show (st.trace ++ _) ++ _ = _
        simp
      · rw [if_neg hab]
        obtain ⟨evs2, htr2, hf2, hsm2, hpr2⟩ := ih (i + 1)
          { st with
            subC := st.subC + (cfg.maxSigningAttempts - 0)
            psC := st.psC + (cfg.maxSigningAttempts - 0 - 1)
            trace := (st.trace ++ List.replicate (cfg.maxSigningAttempts - 0)
              (Event.submitAttempt i (st.signedTXs.get ⟨i, h⟩))) ++
              [Event.failure (.error "MAX_RESIGN_ATTEMPTS_REACHED") i
                st.successfulItems (lastSuccessfulSet sets st.successfulItems)] }
          (by omega) (by simp only; omega) hslot
        refine ⟨(List.replicate (cfg.maxSigningAttempts - 0)
          (Event.submitAttempt i (st.signedTXs.get ⟨i, h⟩)) ++
          [Event.failure (.error "MAX_RESIGN_ATTEMPTS_REACHED") i
            st.successfulItems (lastSuccessfulSet sets st.successfulItems)])
          ++ evs2, ?_, ?_, ?_, ?_⟩
        · rw [htr2]
          simp
        · rw [failuresAt_append, hf, hf2]
          rfl
        · rw [submitsOf_append, hsm, hsm2]
          rfl
        · rw [progressIndices_append, hpr, hpr2]
          rfl
    · exact ⟨[], by simp [sendLoop_done cfg sets pk env fuel i st h], rfl, rfl, rfl⟩

theorem filterMap_replicate_some {α β : Type} (f : α → Option β) (a : α)
    (b : β) (hf : f a = some b) :
    ∀ n : Nat, List.filterMap f (List.replicate n a) = List.replicate n b := by
  intro n
  induction n with
  | zero => rfl
  | succ n ih =>
    rw [List.replicate_succ, List.replicate_succ, List.filterMap_cons, hf, ih]

/-- The failing item's own block: `n` identical submissions of item `k`
followed by a failure event for `k` contribute exactly that failure at
index `k`, exactly `n` submissions of `k`, and no progress. -/
theorem onIndex_block_projections (k : Nat) (tx : Tx) (er : JsError)
    (a3 : Nat) (a4 : Option InstructionSet) (n : Nat) :
    failuresAt k (List.replicate n (Event.submitAttempt k tx) ++
      [Event.failure er k a3 a4]) = [Event.failure er k a3 a4] ∧
    submitsOf k (List.replicate n (Event.submitAttempt k tx) ++
      [Event.failure er k a3 a4]) = List.replicate n tx ∧
    progressIndices (List.replicate n (Event.submitAttempt k tx) ++
      [Event.failure er k a3 a4]) = [] := by
  refine ⟨?_, ?_, ?_⟩
  · rw [failuresAt_append]
    rw [show failuresAt k (List.replicate n (Event.submitAttempt k tx)) = []
      from by
        rw [failuresAt, List.filter_eq_nil]
        intro e he
        rw [List.eq_of_mem_replicate he]
        simp]
    simp [failuresAt, List.filter]
  · rw [submitsOf_append]
    rw [show submitsOf k [Event.failure er k a3 a4] = [] from rfl]
    rw [List.append_nil, submitsOf]
    exact filterMap_replicate_some _ _ tx (by simp) n
  · rw [progressIndices_append]
    rw [show progressIndices [Event.failure er k a3 a4] = [] from rfl]
    rw [List.append_nil, progressIndices, List.filterMap_eq_nil]
    intro e he
    rw [List.eq_of_mem_replicate he]

/-- The heart of C4: starting at item `i ≤ k` with the submission counter
at `i` and the baseline at `slot0`, items below `k` confirm immediately
without expiry, item `k` times out `maxSigningAttempts` times and is
abandoned with `MAX_RESIGN_ATTEMPTS_REACHED`, and (whether or not the loop
aborts) index `k` sees exactly that one failure, exactly
`maxSigningAttempts` submissions, and no progress fires at any index
`≥ k`. -/
theorem sendLoop_c4 (cfg : Config) (sets : List InstructionSet) (pk : Nat)
    (env : Env) (slot0 k : Nat)
    (hmax : 1 ≤ cfg.maxSigningAttempts)
    (hok : ∀ c, c < k → ∃ t s, sendSignedTransaction (env.submit c) = .ok t s ∧
      s < slot0 + 150)
    (hto : ∀ c, k ≤ c → ∃ e, sendSignedTransaction (env.submit c) = .err e ∧
      e.etype = .timeout)
    (hpoll : ∀ p, env.pollSlot p < slot0 + 150) :
    ∀ (fuel i : Nat) (st : SendState), i ≤ k → st.subC = i → st.slot = slot0 →
      k < st.signedTXs.length → k - i < fuel →
      ∃ evs, (sendLoop cfg sets pk env fuel i st).trace = st.trace ++ evs ∧
        failuresAt k evs
          = [Event.failure (.error "MAX_RESIGN_ATTEMPTS_REACHED") k
              (st.successfulItems + (k - i))
              (lastSuccessfulSet sets (st.successfulItems + (k - i)))] ∧
        (submitsOf k evs).length = cfg.maxSigningAttempts ∧
        (∀ x ∈ progressIndices evs, x < k) := by
  intro fuel
  induction fuel with
  | zero =>
    intro i st _ _ _ _ hf
    omega
  | succ fuel ih =>
    intro i st hik hsub hslot hklen hfuel
    have h : i < st.signedTXs.length := by omega
    by_cases hi : i = k
    · subst hi
      have hrun := runAttempts_all_timeout cfg sets pk env i slot0 hpoll
        (cfg.maxSigningAttempts + 1) 0 (st.signedTXs.get ⟨i, h⟩) st hslot
        (by intro c hc; exact hto c (by omega)) (by omega) (by omega)
      rw [sendLoop_step_abandoned cfg sets pk env fuel i st _
        (.error "MAX_RESIGN_ATTEMPTS_REACHED") h hrun]
      obtain ⟨hf1, hs1, hp1⟩ := onIndex_block_projections i
        (st.signedTXs.get ⟨i, h⟩) (.error "MAX_RESIGN_ATTEMPTS_REACHED")
        st.successfulItems (lastSuccessfulSet sets st.successfulItems)
        (cfg.maxSigningAttempts - 0)
      by_cases hab : cfg.abortOnFailure
      · rw [if_pos hab]
        refine ⟨List.replicate (cfg.maxSigningAttempts - 0)
          (Event.submitAttempt i (st.signedTXs.get ⟨i, h⟩)) ++
          [Event.failure (.error "MAX_RESIGN_ATTEMPTS_REACHED") i
            st.successfulItems (lastSuccessfulSet sets st.successfulItems)],
          ?_, ?_, ?_, ?_⟩
        · show (st.trace ++ _) ++ _ = _
          simp
        · rw [hf1]
          simp
        · rw [hs1]
          simp
        · rw [hp1]
          simp
      · rw [if_neg hab]
        obtain ⟨evs2, htr2, hf2, hsm2, hpr2⟩ := sendLoop_after_k cfg sets pk env
          slot0 i hmax hto hpoll fuel (i + 1)
          { st with
            subC := st.subC + (cfg.maxSigningAttempts - 0)
            psC := st.psC + (cfg.maxSigningAttempts - 0 - 1)
            trace := (st.trace ++ List.replicate (cfg.maxSigningAttempts - 0)
              (Event.submitAttempt i (st.signedTXs.get ⟨i, h⟩))) ++
              [Event.failure (.error "MAX_RESIGN_ATTEMPTS_REACHED") i
                st.successfulItems (lastSuccessfulSet sets st.successfulItems)] }
          (by omega) (by simp only; omega) hslot
        refine ⟨(List.replicate (cfg.maxSigningAttempts - 0)
          (Event.submitAttempt i (st.signedTXs.get ⟨i, h⟩)) ++
          [Event.failure (.error "MAX_RESIGN_ATTEMPTS_REACHED") i
            st.successfulItems (lastSuccessfulSet sets st.successfulItems)])
          ++ evs2, ?_, ?_, ?_, ?_⟩
        · rw [htr2]
          simp
        · rw [failuresAt_append, hf1, hf2]
          simp
        · rw [submitsOf_append, hs1, hsm2]
          simp
        · rw [progressIndices_append, hp1, hpr2]
          simp
    · obtain ⟨t, s, hs, hlt⟩ := hok i (by omega)
      have hs' : sendSignedTransaction (env.submit st.subC) = .ok t s := by
        rw [hsub]; exact hs
      have hrun := runAttempts_ok cfg sets pk env i cfg.maxSigningAttempts 0
        (st.signedTXs.get ⟨i, h⟩) st t s hs'
      rw [if_neg (by intro hcon; omega)] at hrun
      rw [sendLoop_step_succeeded cfg sets pk env fuel i st _ h hrun]
      obtain ⟨evs2, htr2, hf2, hsm2, hpr2⟩ := ih (i + 1)
        { st with
          subC := st.subC + 1
          successfulItems := st.successfulItems + 1
          trace := st.trace ++ [.submitAttempt i (st.signedTXs.get ⟨i, h⟩),
            .progress i t] }
        (by omega) (by simp only; omega) hslot (by simpa using hklen) (by omega)
      refine ⟨[Event.submitAttempt i (st.signedTXs.get ⟨i, h⟩),
        Event.progress i t] ++ evs2, ?_, ?_, ?_, ?_⟩
      · rw [htr2]
        simp
      · rw [failuresAt_append, hf2]
        rw [show failuresAt k [Event.submitAttempt i (st.signedTXs.get ⟨i, h⟩),
          Event.progress i t] = [] from rfl]
        rw [List.nil_append]
        rw [show st.successfulItems + 1 + (k - (i + 1))
          = st.successfulItems + (k - i) from by omega]
      · rw [submitsOf_append]
        rw [show submitsOf k [Event.submitAttempt i (st.signedTXs.get ⟨i, h⟩),
          Event.progress i t] = [] from by
            rw [submitsOf, List.filterMap_eq_nil]
            intro e he
            simp only [List.mem_cons, List.not_mem_nil, or_false] at he
            rcases he with rfl | rfl
            · simp [hi]
            · rfl]
        rw [List.nil_append]
        exact hsm2
      · intro x hx
        rw [progressIndices_append] at hx
        rcases List.mem_append.mp hx with hx | hx
        · rw [show progressIndices [Event.submitAttempt i
            (st.signedTXs.get ⟨i, h⟩), Event.progress i t] = [i] from rfl] at hx
          simp only [List.mem_singleton] at hx
          omega
        · exact hpr2 x hx

/-- C4: for every batch in which the envelope at index `k` (with items
before it confirming immediately) times out `maxSigningAttempts` times
with no slot advance (all polls and confirmed slots stay below
`baseline + 150`), the submission counter for index `k` is exactly
`maxSigningAttempts` — it never exceeds the ceiling — the failure
callback fires exactly once with failed index `k` and reason
`MAX_RESIGN_ATTEMPTS_REACHED`, and no progress callback fires for any
index `≥ k` (whether or not `abortOnFailure` is set). -/
theorem c4_max_attempts_reached (sets : List InstructionSet) (cfg : Config)
    (env : Env) (pk : Nat) (st : SendState) (k : Nat)
    (hmax : 1 ≤ cfg.maxSigningAttempts)
    (hk : k < (sets.filter (fun s => !s.instructions.isEmpty)).length)
    (hok : ∀ c, c < k → ∃ t s, sendSignedTransaction (env.submit c) = .ok t s ∧
      s < (env.slotNonce 0).1 + 150)
    (hto : ∀ c, k ≤ c → ∃ e, sendSignedTransaction (env.submit c) = .err e ∧
      e.etype = .timeout)
    (hpoll : ∀ p, env.pollSlot p < (env.slotNonce 0).1 + 150)
    (hsend : send (some pk) sets cfg env = .ok st) :
    failuresAt k st.trace
      = [Event.failure (.error "MAX_RESIGN_ATTEMPTS_REACHED") k k
          (lastSuccessfulSet sets k)] ∧
    (submitsOf k st.trace).length = cfg.maxSigningAttempts ∧
    (∀ x ∈ progressIndices st.trace, x < k) := by
  have hnil : sets ≠ [] := by
    intro hcon
    subst hcon
    simp at hk
  rw [send_ok pk sets cfg env hnil] at hsend
  cases hsend
  obtain ⟨evs, htr, hfa, hsm, hpr⟩ := sendLoop_c4 cfg sets pk env
    (env.slotNonce 0).1 k hmax hok hto hpoll (sets.length + 1) 0
    { signedTXs := ((sets.filter (fun s => !s.instructions.isEmpty)).map
        (buildTx pk (env.slotNonce 0).2)).map signTx
      slot := (env.slotNonce 0).1
      blockhash := (env.slotNonce 0).2
      successfulItems := 0
      snC := 1
      psC := 0
      subC := 0
      trace := [] }
    (Nat.zero_le k) rfl rfl (by simpa using hk)
    (by
      have := List.length_filter_le (fun s => !s.instructions.isEmpty) sets
      omega)
  rw [List.nil_append] at htr
  rw [htr]
  refine ⟨?_, hsm, hpr⟩
  simpa using hfa

/-- Witness for C4 at a concrete input: two items, `maxSigningAttempts = 2`,
item 0 confirming at slot 0 and item 1 always timing out. -/
theorem c4_max_attempts_witness :
    ∃ st, send (some 9)
        [{ instructions := [10], signers := [] }, { instructions := [11], signers := [] }]
        ⟨2, true⟩
        ⟨fun _ => (0, 7), fun _ => 0,
         fun c => if c < 1 then ⟨.confirmedOk 100, some 0⟩
                  else ⟨.threw true, none⟩⟩ = .ok st ∧
      failuresAt 1 st.trace
        = [Event.failure (.error "MAX_RESIGN_ATTEMPTS_REACHED") 1 1
            (some { instructions := [10], signers := [] })] ∧
      (submitsOf 1 st.trace).length = 2 ∧
      (∀ x ∈ progressIndices st.trace, x < 1) := by
  have h := c4_max_attempts_reached
    [{ instructions := [10], signers := [] }, { instructions := [11], signers := [] }]
    ⟨2, true⟩
    ⟨fun _ => (0, 7), fun _ => 0,
     fun c => if c < 1 then ⟨.confirmedOk 100, some 0⟩
              else ⟨.threw true, none⟩⟩ 9
    (sendLoop ⟨2, true⟩
      [{ instructions := [10], signers := [] }, { instructions := [11], signers := [] }]
      9 ⟨fun _ => (0, 7), fun _ => 0,
        fun c => if c < 1 then ⟨.confirmedOk 100, some 0⟩
                 else ⟨.threw true, none⟩⟩
      3 0 ⟨[⟨9, 7, [10], [], true⟩, ⟨9, 7, [11], [], true⟩], 0, 7, 0, 1, 0, 0, []⟩)
    1 (by decide) (by decide)
    (by
      intro c hc
      have hc0 : c = 0 := by omega
      subst hc0
      exact ⟨100, 0, rfl, by decide⟩)
    (by
      intro c hc
      refine ⟨⟨.timeout, none⟩, ?_, rfl⟩
      show sendSignedTransaction
        (if c < 1 then ⟨.confirmedOk 100, some 0⟩ else ⟨.threw true, none⟩)
        = .err ⟨.timeout, none⟩
      rw [if_neg (by omega)]
      rfl)
    (by
      intro p
      show (0 : Nat) < 0 + 150
      decide)
    rfl
  refine ⟨sendLoop ⟨2, true⟩
      [{ instructions := [10], signers := [] }, { instructions := [11], signers := [] }]
      9 ⟨fun _ => (0, 7), fun _ => 0,
        fun c => if c < 1 then ⟨.confirmedOk 100, some 0⟩
                 else ⟨.threw true, none⟩⟩
      3 0 ⟨[⟨9, 7, [10], [], true⟩, ⟨9, 7, [11], [], true⟩], 0, 7, 0, 1, 0, 0, []⟩,
    rfl, ?_, h.2.1, h.2.2⟩
  rw [h.1]
  rfl

end SolanaWeb3Tools
